import Mathlib

/-!
# Verification of the youtube-to-mp3 backend against its specification

Shallow embedding of the repository's task registry (`app/services/task_manager.py`),
filename/URL utilities (`app/utils/helpers.py`, `app/utils/validators.py`),
download workflows (`app/services/youtube_service.py`) and HTTP route handlers
(`app/api/routes.py`), together with theorems settling the specification claims.

Modelling conventions:
* Python floats (task progress, download percents) are modelled as `ℚ`;
  every claim about them is an order/equality fact that does not depend on
  rounding of binary floating point.
* The external media engine (yt-dlp), the filesystem and Unicode normalization
  are environments: their outcomes are parameters of the embedded functions
  (e.g. `Option` results for metadata lookups, a `List String` of files on
  disk, a `String → String` parameter for `unicodedata.normalize("NFKD", ·)`).
* `asyncio` locking serializes every registry operation, so the registry is
  modelled as a pure map `String → Option Task` transformed atomically.
-/

namespace YtMp3

/-! ## Data model (`app/models.py`) -/

/-- `TaskStatus` enumeration from `app/models.py`. The Python class is a
`str` enum with values `"pending"`, `"processing"`, `"completed"`, `"failed"`;
every value is a non-empty string, hence truthy. -/
inductive TaskStatus
  | pending
  | processing
  | completed
  | failed
deriving DecidableEq

/-- The mutable per-task record stored by `TaskManager` (the dict created in
`TaskManager.create_task`). -/
structure Task where
  status : TaskStatus
  progress : ℚ
  message : String
  total_videos : ℕ
  completed_videos : ℕ
  file_paths : List String
deriving DecidableEq

/-- `TaskResponse` pydantic model from `app/models.py`; defaults
`progress = 0.0`, `total_videos = 0`, `completed_videos = 0`. -/
structure TaskResponse where
  task_id : String
  status : TaskStatus
  message : String
  progress : ℚ := 0
  total_videos : ℕ := 0
  completed_videos : ℕ := 0
deriving DecidableEq

/-- `VideoInfo` pydantic model from `app/models.py`. -/
structure VideoInfo where
  id : String
  title : String
  duration : ℕ
  thumbnail : String
  selected : Bool := true
deriving DecidableEq

/-! ## Task registry (`app/services/task_manager.py`) -/

/-- The `TaskManager.tasks` dict, keyed by task id. All operations run under
`self._lock`, so each one is atomic; we model the store as a map. -/
def Registry := String → Option Task

/-- The record literal inserted by `TaskManager.create_task`:
status `pending`, progress `0.0`, message `"Task created"`, the given total,
zero completed videos, empty file list. -/
def freshTask (total_videos : ℕ) : Task :=
  { status := .pending
    progress := 0
    message := "Task created"
    total_videos := total_videos
    completed_videos := 0
    file_paths := [] }

/-- `TaskManager.create_task`: `self.tasks[task_id] = {...}`. The task id is a
fresh `uuid4` in the source; here it is a parameter. -/
def create_task (r : Registry) (task_id : String) (total_videos : ℕ) : Registry :=
  fun k => if k = task_id then some (freshTask total_videos) else r k

/-- One set of keyword arguments to `TaskManager.update_task`; `none` models a
parameter left at its `None` default. -/
structure UpdateCall where
  status : Option TaskStatus := none
  progress : Option ℚ := none
  message : Option String := none
  completed_videos : Option ℕ := none
  file_path : Option String := none
deriving DecidableEq

/-- The body of `TaskManager.update_task` acting on the present record.
Python guards, faithfully:
* `if status:` — every `TaskStatus` value is a truthy string, so this is
  exactly "status was passed";
* `if progress is not None:` / `if completed_videos is not None:` — applied
  whenever passed, including `0`;
* `if message:` / `if file_path:` — string truthiness: an empty string passed
  explicitly is ignored;
* `self.tasks[task_id]["file_paths"].append(file_path)` — append at the end. -/
def applyUpd (t : Task) (u : UpdateCall) : Task :=
  let t1 := match u.status with
    | some s => { t with status := s }
    | none => t
  let t2 := match u.progress with
    | some p => { t1 with progress := p }
    | none => t1
  let t3 := match u.message with
    | some m => if m = "" then t2 else { t2 with message := m }
    | none => t2
  let t4 := match u.completed_videos with
    | some c => { t3 with completed_videos := c }
    | none => t3
  match u.file_path with
  | some f => if f = "" then t4 else { t4 with file_paths := t4.file_paths ++ [f] }
  | none => t4

/-- `TaskManager.update_task`: silently returns if the id is unknown,
otherwise mutates exactly the addressed record. -/
def update_task (r : Registry) (task_id : String) (u : UpdateCall) : Registry :=
  match r task_id with
  | none => r
  | some t => fun k => if k = task_id then some (applyUpd t u) else r k

/-- `TaskManager.get_task`: snapshot projection; unknown id yields the
synthetic `failed` / `"Task not found"` response (pydantic defaults fill
progress/totals with zeros). It never raises. -/
def get_task (r : Registry) (task_id : String) : TaskResponse :=
  match r task_id with
  | none =>
      { task_id := task_id
        status := .failed
        message := "Task not found" }
  | some t =>
      { task_id := task_id
        status := t.status
        message := t.message
        progress := t.progress
        total_videos := t.total_videos
        completed_videos := t.completed_videos }

/-- `TaskManager.get_task_files`: the ordered file list, `[]` if unknown. -/
def get_task_files (r : Registry) (task_id : String) : List String :=
  match r task_id with
  | none => []
  | some t => t.file_paths

/-- `TaskManager.cleanup_task`: removes the record if present. -/
def cleanup_task (r : Registry) (task_id : String) : Registry :=
  fun k => if k = task_id then none else r k

/-- The `GET /api/task/{task_id}` handler (`routes.py`, `get_task_status`):
it returns `task_manager.get_task(task_id)` unconditionally, so the route has
no HTTP error path at all — its result type is a plain `TaskResponse`. -/
def get_task_status (r : Registry) (task_id : String) : TaskResponse :=
  get_task r task_id

/-! ## Registry operation sequences (for the append-only claim) -/

/-- A registry operation issued by some caller: task creation or update. -/
inductive RegOp
  | create (task_id : String) (total_videos : ℕ)
  | update (task_id : String) (u : UpdateCall)

/-- Apply one operation. -/
def applyOp (r : Registry) : RegOp → Registry
  | .create id n => create_task r id n
  | .update id u => update_task r id u

/-- Apply a sequence of operations in order. -/
def applyOps (r : Registry) : List RegOp → Registry
  | [] => r
  | op :: ops => applyOps (applyOp r op) ops

/-- Every `create` in the sequence uses an id not currently in the registry —
this is what `uuid.uuid4()` guarantees in `create_task`. -/
def opsFresh (r : Registry) : List RegOp → Prop
  | [] => True
  | op :: ops =>
      (match op with
        | .create id _ => r id = none
        | .update _ _ => True) ∧ opsFresh (applyOp r op) ops

/-! ## URL validators (`app/utils/validators.py`)

The three video patterns and the playlist pattern are each a fixed literal
followed by a capture group `([^&\n?#]+)`. `re.search` finds the leftmost
position where the pattern matches, trying alternation branches left to
right at each position; the greedy `+` capture takes the maximal non-empty
run of non-terminator characters. -/

/-- The capture-terminator class `[^&\n?#]` of the validator regexes. -/
def capTerm (c : Char) : Bool :=
  c = '&' || c = '\n' || c = '?' || c = '#'

/-- Try one literal at the current position: the literal must be a prefix and
the following capture run must be non-empty. -/
def tryLit (lit cs : List Char) : Option (List Char) :=
  if lit.isPrefixOf cs then
    let cap := (cs.drop lit.length).takeWhile (fun c => !capTerm c)
    if cap = [] then none else some cap
  else none

/-- Try the alternation branches left to right at one position. -/
def firstLitAt (lits : List (List Char)) (cs : List Char) : Option (List Char) :=
  match lits with
  | [] => none
  | l :: ls =>
    match tryLit l cs with
    | some cap => some cap
    | none => firstLitAt ls cs

/-- `re.search` for a literal-alternation-then-capture pattern: scan positions
left to right, trying all branches at each position. -/
def reSearch (lits : List (List Char)) : List Char → Option (List Char)
  | [] => firstLitAt lits []
  | c :: cs =>
    match firstLitAt lits (c :: cs) with
    | some cap => some cap
    | none => reSearch lits cs

/-- Literal part of branch `youtube\.com\/watch\?v=` of the first pattern. -/
def litWatch : List Char := "youtube.com/watch?v=".data

/-- Literal part of branch `youtu\.be\/` of the first pattern. -/
def litShort : List Char := "youtu.be/".data

/-- Literal part of the second pattern `youtube\.com\/embed\/`. -/
def litEmbed : List Char := "youtube.com/embed/".data

/-- Literal part of the third pattern `youtube\.com\/v\/`. -/
def litVPath : List Char := "youtube.com/v/".data

/-- Literal part of the playlist pattern `(?:list=)`. -/
def litList : List Char := "list=".data

/-- `extract_video_id`: tries the three patterns in order, returning the first
capture group of the first pattern that matches anywhere in the URL. -/
def extract_video_id (url : String) : Option String :=
  match reSearch [litWatch, litShort] url.data with
  | some cap => some (String.mk cap)
  | none =>
    match reSearch [litEmbed] url.data with
    | some cap => some (String.mk cap)
    | none =>
      match reSearch [litVPath] url.data with
      | some cap => some (String.mk cap)
      | none => none

/-- `extract_playlist_id`: the `list=` pattern's capture, if any. -/
def extract_playlist_id (url : String) : Option String :=
  (reSearch [litList] url.data).map String.mk

/-- `is_valid_youtube_url`: `bool(extract_video_id(url) or
extract_playlist_id(url))`. A returned capture is a non-empty string, hence
truthy, so the Python `or`-chain is exactly the disjunction of `isSome`s. -/
def is_valid_youtube_url (url : String) : Bool :=
  (extract_video_id url).isSome || (extract_playlist_id url).isSome

/-! ## Python substring test (used by the routes: `"list=" in url`) -/

/-- Python's `sub in hay` on strings: `sub` occurs as a contiguous substring. -/
def containsSub (sub : List Char) : List Char → Bool
  | [] => sub.isEmpty
  | c :: cs => sub.isPrefixOf (c :: cs) || containsSub sub cs

/-- `sub in s` for `String`s. -/
def strContains (s sub : String) : Bool :=
  containsSub sub.data s.data

/-! ## Filename sanitization (`app/utils/helpers.py`, `sanitize_filename`) -/

/-- Python whitespace (`str.split()` / `str.strip()` with no argument),
restricted to the ASCII range — the split/strip stages of
`sanitize_filename` run after the `'ascii'`-codec filter, so only these
characters can occur: HT LF VT FF CR FS GS RS US and the space. -/
def pyIsSpace (c : Char) : Bool :=
  c = ' ' || c = '\t' || c = '\n' || c = '\x0b' || c = '\x0c' || c = '\r' ||
  c = '\x1c' || c = '\x1d' || c = '\x1e' || c = '\x1f'

/-- `filename.encode('ascii', 'ignore').decode('ascii')`: drop every code
point outside the ASCII range. -/
def asciiIgnore (cs : List Char) : List Char :=
  cs.filter (fun c => c.toNat < 128)

/-- The `invalid_chars = '<>:"/\\|?*'` string of `sanitize_filename`. -/
def invalidChars : List Char :=
  ['<', '>', ':', '"', '/', '\\', '|', '?', '*']

/-- One `filename.replace(char, '_')` pass. -/
def replacePass (cs : List Char) (c : Char) : List Char :=
  cs.map (fun x => if x = c then '_' else x)

/-- The `for char in invalid_chars: filename = filename.replace(char, '_')`
loop. -/
def replaceInvalid (cs : List Char) : List Char :=
  invalidChars.foldl replacePass cs

/-- Helper for Python `str.split()`: `acc` is the current word, reversed. -/
def splitAux : List Char → List Char → List (List Char)
  | [], acc => if acc.isEmpty then [] else [acc.reverse]
  | c :: cs, acc =>
    if pyIsSpace c then
      if acc.isEmpty then splitAux cs [] else acc.reverse :: splitAux cs []
    else splitAux cs (c :: acc)

/-- Python `str.split()` with no argument: maximal runs of non-whitespace,
empty words never produced. -/
def pySplit (cs : List Char) : List (List Char) :=
  splitAux cs []

/-- `' '.join(words)`. -/
def joinSpace : List (List Char) → List Char
  | [] => []
  | [w] => w
  | w :: ws => w ++ ' ' :: joinSpace ws

/-- Python `str.strip()` with no argument: remove leading and trailing
whitespace. -/
def pyStrip (cs : List Char) : List Char :=
  (((cs.dropWhile pyIsSpace).reverse.dropWhile pyIsSpace)).reverse

/-- `sanitize_filename` from `app/utils/helpers.py`. The parameter `nfkd`
stands for the external `unicodedata.normalize('NFKD', ·)`; the rest is the
source pipeline: ASCII filter, invalid-character replacement,
whitespace collapse (`' '.join(filename.split())`), `[:200].strip()`. -/
def sanitize_filename (nfkd : String → String) (filename : String) : String :=
  let cs := (nfkd filename).data
  let cs := asciiIgnore cs
  let cs := replaceInvalid cs
  let cs := joinSpace (pySplit cs)
  String.mk (pyStrip (cs.take 200))

/-! ## Output predicates for the sanitized filename -/

/-- All characters are ASCII. -/
def allAscii (cs : List Char) : Bool :=
  cs.all (fun c => c.toNat < 128)

/-- No character from the invalid set. -/
def noInvalid (cs : List Char) : Bool :=
  cs.all (fun c => !invalidChars.contains c)

/-- Every whitespace character is a plain space. -/
def onlySpaceWs (cs : List Char) : Bool :=
  cs.all (fun c => !pyIsSpace c || c = ' ')

/-- No two adjacent whitespace characters. -/
def noDoubleWs : List Char → Bool
  | c1 :: c2 :: cs => !(pyIsSpace c1 && pyIsSpace c2) && noDoubleWs (c2 :: cs)
  | _ => true

/-- The first character, if any, is not whitespace. -/
def headNoWs (cs : List Char) : Bool :=
  match cs.head? with
  | some c => !pyIsSpace c
  | none => true

/-- The last character, if any, is not whitespace. -/
def lastNoWs (cs : List Char) : Bool :=
  headNoWs cs.reverse

/-! ## The HTTP info / download-submission handlers (`app/api/routes.py`) -/

/-- The request body of `POST /api/info` and `POST /api/download`
(`DownloadRequest` in `app/models.py`): a URL and an `is_playlist` flag
defaulting to `False`. -/
structure DownloadRequest where
  url : String
  is_playlist : Bool := false
deriving DecidableEq

/-- Environment of the info handler: the results the media service would
return for this URL — `get_playlist_info` yields an optional title and a
video list, `get_video_info` an optional video. -/
structure InfoEnv where
  playlistResult : Option String × List VideoInfo
  videoResult : Option VideoInfo
deriving DecidableEq

/-- Outcome of `POST /api/info`: an `HTTPException` or a
`VideoInfoResponse (is_playlist, videos, playlist_title)`. -/
inductive InfoOutcome
  | httpError (code : ℕ) (detail : String)
  | ok (isPl : Bool) (videos : List VideoInfo) (playlistTitle : Option String)
deriving DecidableEq

/-- The `POST /api/info` handler (`get_video_info` in `routes.py`):
validates the URL, then branches on `"list=" in url` — the request's own
`is_playlist` field is not read anywhere in the body. `if not videos:`
is the Python emptiness test. -/
def get_video_info_route (req : DownloadRequest) (env : InfoEnv) : InfoOutcome :=
  if !is_valid_youtube_url req.url then
    .httpError 400 "Invalid YouTube URL"
  else if strContains req.url "list=" then
    let r := env.playlistResult
    if r.2 = [] then .httpError 404 "Playlist not found or empty"
    else .ok true r.2 r.1
  else
    match env.videoResult with
    | none => .httpError 404 "Video not found"
    | some v => .ok false [v] none

/-- Outcome of `POST /api/download`: an `HTTPException`, or a created task
(with the scheduled background single-video download of `dlUrl`) plus the
`TaskResponse` returned to the client. -/
inductive DownloadOutcome
  | httpError (code : ℕ) (detail : String)
  | started (total_videos : ℕ) (dlUrl : String) (resp : TaskResponse)
deriving DecidableEq

/-- The `POST /api/download` handler (`download_video` in `routes.py`):
validates the URL, creates a task with `total_videos=1`, schedules
`download_single_video(url, task_id)` in the background, and returns the
fresh task projection. `new_id` models the generated uuid. -/
def download_video_route (req : DownloadRequest) (r : Registry) (new_id : String) :
    DownloadOutcome :=
  if !is_valid_youtube_url req.url then
    .httpError 400 "Invalid YouTube URL"
  else
    let r2 := create_task r new_id 1
    .started 1 req.url (get_task r2 new_id)

/-! ## The per-file download handler (`app/api/routes.py`,
`download_single_from_playlist`) -/

/-- Outcome of `GET /api/download-single/{task_id}/{file_index}`:
an `HTTPException`, a streamed `FileResponse` (with the delay of the
scheduled `cleanup_file` background task), or an exception escaping the
handler (FastAPI turns it into a 500 response). -/
inductive FileRouteOutcome
  | httpError (code : ℕ) (detail : String)
  | stream (path : String) (filename : String) (media_type : String)
      (cleanupDelay : ℕ)
  | uncaughtError
deriving DecidableEq

/-- Python list subscription `l[i]` for `i : ℤ`: non-negative indices from
the front, negative indices from the back, `none` = `IndexError`. -/
def pyIndex (l : List String) (i : ℤ) : Option String :=
  if 0 ≤ i then l[i.toNat]?
  else if 0 ≤ i + l.length then l[(i + l.length).toNat]?
  else none

/-- `pathlib.Path(p).name`: the part after the last `/`. -/
def pathName (p : String) : String :=
  String.mk ((p.data.reverse.takeWhile (fun c => c ≠ '/')).reverse)

/-- The display filename of the file route: strip non-ASCII from the
basename; if that is empty, `f"audio_{file_index}.mp3"`. -/
def safeFileName (p : String) (file_index : ℤ) : String :=
  let safe := String.mk (asciiIgnore (pathName p).data)
  if safe = "" then "audio_" ++ toString file_index ++ ".mp3" else safe

/-- The `GET /api/download-single/{task_id}/{file_index}` handler.
`disk` is the set of files currently existing on disk. Mirrors the source:
* `task.status != "completed"` → 400 `"Task not completed"`;
* `not files or file_index >= len(files)` → 404 `"File not found"`
  (note: negative indices pass this guard);
* `files[file_index]` — Python indexing, `IndexError` escapes the handler;
* `not file_path.exists()` → 404 `"File not found"`;
* otherwise a `FileResponse` with media type `audio/mpeg` and a
  `cleanup_file(file_path, 30)` background task. -/
def download_single_from_playlist (r : Registry) (disk : List String)
    (task_id : String) (file_index : ℤ) : FileRouteOutcome :=
  let task := get_task r task_id
  if task.status ≠ .completed then .httpError 400 "Task not completed"
  else
    let files := get_task_files r task_id
    if files = [] ∨ (files.length : ℤ) ≤ file_index then
      .httpError 404 "File not found"
    else
      match pyIndex files file_index with
      | none => .uncaughtError
      | some fp =>
        if fp ∉ disk then .httpError 404 "File not found"
        else .stream fp (safeFileName fp file_index) "audio/mpeg" 30

/-! ## Download workflows (`app/services/youtube_service.py`)

The workflows are modelled as the sequence of `update_task` calls they issue
on their task, parametrized by the outcomes of the external engine and the
filesystem. The registry's own behaviour on those calls is `applyUpd`-folding
(the workflow is the task's only writer). -/

/-- One invocation of the `progress_hook` callback, abstracted to the data the
hook reads from the yt-dlp event dict `d`:
* `downloading (some p)` — `d['status'] == 'downloading'` and
  `float(d.get('_percent_str', '0%').strip('%'))` parsed to `p`
  (a missing `_percent_str` parses as `0`);
* `downloading none` — the `float(...)` call raised
  `ValueError`/`TypeError` (malformed percent string);
* `finished` — `d['status'] == 'finished'`;
* `otherEvent` — any other status value: the hook does nothing. -/
inductive HookEvent
  | downloading (percent : Option ℚ)
  | finished
  | otherEvent
deriving DecidableEq

/-- Python `abs` on our rational model of floats. -/
def pyAbs (q : ℚ) : ℚ :=
  if q < 0 then -q else q

/-- `f"{percent:.0f}"`, abstracted to nearest-integer rendering (the exact
text is asserted by no claim; it is non-empty in every case because of the
`"Downloading: "` prefix). -/
def fmtPercent (q : ℚ) : String :=
  toString (round q)

/-- One step of `progress_hook`: given `last_percent[0]`, produce the new
`last_percent[0]` and the `update_task` call scheduled on the loop (if any).
* `downloading`: only when `abs(percent - last_percent[0]) >= 5`, update with
  `progress = 10 + percent * 0.7` and message `f"Downloading: {percent:.0f}%"`,
  and record the percent;
* `finished`: update with progress `80.0` and message `"Converting to MP3..."`
  (the stored percent is not changed);
* malformed percents and other statuses do nothing. -/
def hookStep (last : ℚ) : HookEvent → ℚ × Option UpdateCall
  | .downloading none => (last, none)
  | .downloading (some p) =>
    if 5 ≤ pyAbs (p - last) then
      (p, some { progress := some (10 + p * (7 / 10))
                 message := some ("Downloading: " ++ fmtPercent p ++ "%") })
    else (last, none)
  | .finished =>
    (last, some { progress := some 80, message := some "Converting to MP3..." })
  | .otherEvent => (last, none)

/-- The update calls applied by the hook over a sequence of engine events,
threading `last_percent[0]` (initially `0`). -/
def runHook (last : ℚ) : List HookEvent → List UpdateCall
  | [] => []
  | e :: es =>
    match hookStep last e with
    | (l2, some u) => u :: runHook l2 es
    | (l2, none) => runHook l2 es

/-- The progress values of the updates the hook applies. -/
def appliedProgress (last : ℚ) (es : List HookEvent) : List ℚ :=
  (runHook last es).filterMap (fun u => u.progress)

/-- Environment of one `download_single_video` run:
* `info` — `get_video_info` outcome (`some title` on success; the service
  catches its own errors and returns `None` on any failure);
* `events` — the engine's progress-hook invocations during the download;
* `dlError` — `some text` if the blocking `ydl.download` call raised (caught
  by the top-level handler), `none` if it returned;
* `fileOnDisk` — `final_file.exists()` after the settle wait. -/
structure SingleEnv where
  info : Option String
  events : List HookEvent
  dlError : Option String
  fileOnDisk : Bool

/-- The sequence of registry updates issued by
`YouTubeService.download_single_video` on its task. `nfkd` feeds
`sanitize_filename`; `dir` and `fmt` are `settings.DOWNLOAD_DIR` and
`settings.AUDIO_FORMAT`. -/
def download_single_video (nfkd : String → String) (dir fmt : String)
    (env : SingleEnv) : List UpdateCall :=
  { status := some .processing
    message := some "Fetching video information..."
    progress := some 10 } ::
  match env.info with
  | none =>
    [{ status := some .failed
       message := some "Failed to fetch video information" }]
  | some title =>
    let filename := sanitize_filename nfkd title
    let finalFile := dir ++ "/" ++ filename ++ "." ++ fmt
    runHook 0 env.events ++
    match env.dlError with
    | some e => [{ status := some .failed, message := some ("Error: " ++ e) }]
    | none =>
      if env.fileOnDisk then
        [{ status := some .completed
           progress := some 100
           message := some "Download completed!"
           completed_videos := some 1
           file_path := some finalFile }]
      else
        [{ status := some .failed, message := some "File conversion failed" }]

/-- One playlist item as the loop sees it: the selected video id, the
`get_video_info` outcome, whether the download call raised (caught by the
per-item handler), and whether the expected output file exists afterwards. -/
structure ItemRun where
  video_id : String
  info : Option String
  dlError : Bool
  fileOnDisk : Bool

/-- The loop body of `download_playlist` for one item at position `idx` with
running completed counter `c`: returns the updates issued and the new
counter.
* failed metadata lookup → logged skip, no update;
* otherwise the `"Downloading {idx+1}/{total}: {title[:50]}..."` message
  update; then, if the download call raised, the per-item `except` swallows
  it; otherwise, if the output file exists, the progress
  `(completed/total)*100` / counter / appended-path update. -/
def itemUpdates (nfkd : String → String) (dir fmt : String) (total idx c : ℕ)
    (it : ItemRun) : List UpdateCall × ℕ :=
  match it.info with
  | none => ([], c)
  | some title =>
    let filename := sanitize_filename nfkd title
    let msgU : UpdateCall :=
      { message := some ("Downloading " ++ toString (idx + 1) ++ "/" ++
          toString total ++ ": " ++ title.take 50 ++ "...") }
    if it.dlError then ([msgU], c)
    else if it.fileOnDisk then
      ([msgU,
        { progress := some (((c + 1 : ℚ)) / (total : ℚ) * 100)
          completed_videos := some (c + 1)
          file_path := some (dir ++ "/" ++ filename ++ "." ++ fmt) }], c + 1)
    else ([msgU], c)

/-- The `for idx, video_id in enumerate(video_ids)` loop: all items are
processed in order regardless of earlier failures; returns the issued updates
and the final completed counter. -/
def playlistLoop (nfkd : String → String) (dir fmt : String) (total : ℕ) :
    ℕ → ℕ → List ItemRun → List UpdateCall × ℕ
  | _, c, [] => ([], c)
  | idx, c, it :: its =>
    let r := itemUpdates nfkd dir fmt total idx c it
    let rest := playlistLoop nfkd dir fmt total (idx + 1) r.2 its
    (r.1 ++ rest.1, rest.2)

/-- The number of items whose metadata lookup succeeded, whose download call
did not raise, and whose output file exists — exactly the items that
increment the loop counter. -/
def succCount (items : List ItemRun) : ℕ :=
  items.countP (fun it => it.info.isSome && !it.dlError && it.fileOnDisk)

/-- The sequence of registry updates issued by
`YouTubeService.download_playlist` on its task: the `processing` update, the
loop's updates, then the terminal update chosen by `if completed > 0`. -/
def download_playlist (nfkd : String → String) (dir fmt : String)
    (items : List ItemRun) : List UpdateCall :=
  let total := items.length
  let loopRes := playlistLoop nfkd dir fmt total 0 0 items
  { status := some .processing
    message := some ("Starting download of " ++ toString total ++ " videos...") } ::
  loopRes.1 ++
  [if 0 < loopRes.2 then
    { status := some .completed
      message := some ("Completed! Downloaded " ++ toString loopRes.2 ++ "/" ++
        toString total ++ " videos")
      progress := some 100 }
   else
    { status := some .failed
      message := some "No videos were downloaded successfully" }]

/-! ## Trace invariants for the lifecycle claims -/

/-- Is this update setting a terminal status? -/
def isTerminalStatus : Option TaskStatus → Bool
  | some .completed => true
  | some .failed => true
  | _ => false

/-- `completed_videos ≤ N` holds at every point while folding the updates
over the task record (checked before and after every update). -/
def completedBounded (N : ℕ) : Task → List UpdateCall → Bool
  | t, [] => t.completed_videos ≤ N
  | t, u :: us => (decide (t.completed_videos ≤ N)) && completedBounded N (applyUpd t u) us

/-- Every update except possibly the final one carries a non-terminal status:
once `completed` or `failed` is issued, the workflow issues nothing further
at all, in particular no status-changing update. -/
def noStatusAfterTerminal (tr : List UpdateCall) : Bool :=
  tr.dropLast.all (fun u => !isTerminalStatus u.status)

/-! ## Helper lemmas: field-wise behaviour of `applyUpd` -/

theorem applyUpd_status (t : Task) (u : UpdateCall) :
    (applyUpd t u).status = u.status.getD t.status := by
  obtain ⟨s, p, m, c, f⟩ := u
  cases s <;> cases p <;> cases m <;> cases c <;> cases f <;>
    simp [applyUpd] <;> split_ifs <;> rfl

theorem applyUpd_progress (t : Task) (u : UpdateCall) :
    (applyUpd t u).progress = u.progress.getD t.progress := by
  obtain ⟨s, p, m, c, f⟩ := u
  cases s <;> cases p <;> cases m <;> cases c <;> cases f <;>
    simp [applyUpd] <;> split_ifs <;> rfl

theorem applyUpd_total (t : Task) (u : UpdateCall) :
    (applyUpd t u).total_videos = t.total_videos := by
  obtain ⟨s, p, m, c, f⟩ := u
  cases s <;> cases p <;> cases m <;> cases c <;> cases f <;>
    simp [applyUpd] <;> split_ifs <;> rfl

theorem applyUpd_completed (t : Task) (u : UpdateCall) :
    (applyUpd t u).completed_videos = u.completed_videos.getD t.completed_videos := by
  obtain ⟨s, p, m, c, f⟩ := u
  cases s <;> cases p <;> cases m <;> cases c <;> cases f <;>
    simp [applyUpd] <;> split_ifs <;> rfl

theorem applyUpd_message (t : Task) (u : UpdateCall) :
    (applyUpd t u).message =
      (match u.message with
        | some m => if m = "" then t.message else m
        | none => t.message) := by
  obtain ⟨s, p, m, c, f⟩ := u
  cases s <;> cases p <;> cases m <;> cases c <;> cases f <;>
    simp [applyUpd] <;> split_ifs <;> rfl

theorem applyUpd_files (t : Task) (u : UpdateCall) :
    (applyUpd t u).file_paths =
      t.file_paths ++
        (match u.file_path with
          | some f => if f = "" then [] else [f]
          | none => []) := by
  obtain ⟨s, p, m, c, f⟩ := u
  cases s <;> cases p <;> cases m <;> cases c <;> cases f <;>
    simp [applyUpd] <;> split_ifs <;> simp

theorem update_task_found {r : Registry} {task_id : String} {t : Task}
    (h : r task_id = some t) (u : UpdateCall) :
    update_task r task_id u = fun k =>
      if k = task_id then some (applyUpd t u) else r k := by
  simp [update_task, h]

theorem update_task_missing {r : Registry} {task_id : String}
    (h : r task_id = none) (u : UpdateCall) :
    update_task r task_id u = r := by
  simp [update_task, h]

/-! ## C3: unknown-task lookup -/

/-- **C3.** For every task id that was never created or has been deleted
(`r task_id = none`), `get_task` returns a `TaskResponse` with status
`failed` and message `"Task not found"` (with the pydantic defaults for the
numeric fields) — it is a total function, it never raises — and the
`GET /api/task/{task_id}` handler returns exactly that projection: the
route's result type has no HTTP-error alternative at all. -/
theorem claim_C3_unknown_task_lookup (r : Registry) (task_id : String)
    (h : r task_id = none) :
    get_task r task_id =
      { task_id := task_id
        status := .failed
        message := "Task not found"
        progress := 0
        total_videos := 0
        completed_videos := 0 } ∧
    get_task_status r task_id = get_task r task_id := by
  refine ⟨?_, rfl⟩
  simp [get_task, h]

/-- Witness for C3 at the empty registry and the id `"nosuch"`. -/
theorem claim_C3_witness :
    get_task (fun _ => none : Registry) "nosuch" =
      { task_id := "nosuch"
        status := .failed
        message := "Task not found"
        progress := 0
        total_videos := 0
        completed_videos := 0 } ∧
    get_task_status (fun _ => none : Registry) "nosuch" =
      get_task (fun _ => none : Registry) "nosuch" :=
  claim_C3_unknown_task_lookup (fun _ => none) "nosuch" rfl

/-! ## C4: update_task frame conditions -/

/-- **C4 (amended).** `update_task` on an existing task rewrites exactly the
addressed record and leaves every other id untouched; field by field, a
provided `status`, `progress` or `completed_videos` always applies (the
latter two even when zero), while a provided `message` or `file_path`
applies only when the string is non-empty (Python truthiness: an explicit
empty string is silently ignored); a provided non-empty file path is
appended at the end of the ordered list; and for an unknown task id the
call is a silent no-op. -/
theorem claim_C4_update_frame (r : Registry) (task_id : String) (u : UpdateCall) :
    (∀ t, r task_id = some t →
      update_task r task_id u task_id = some (applyUpd t u) ∧
      (∀ k, k ≠ task_id → update_task r task_id u k = r k) ∧
      (applyUpd t u).status = u.status.getD t.status ∧
      (applyUpd t u).progress = u.progress.getD t.progress ∧
      (applyUpd t u).total_videos = t.total_videos ∧
      (applyUpd t u).completed_videos = u.completed_videos.getD t.completed_videos ∧
      (applyUpd t u).message =
        (match u.message with
          | some m => if m = "" then t.message else m
          | none => t.message) ∧
      (applyUpd t u).file_paths =
        t.file_paths ++
          (match u.file_path with
            | some f => if f = "" then [] else [f]
            | none => [])) ∧
    (r task_id = none → update_task r task_id u = r) := by
  constructor
  · intro t ht
    rw [update_task_found ht]
    refine ⟨by simp, fun k hk => by simp [hk], applyUpd_status t u,
      applyUpd_progress t u, applyUpd_total t u, applyUpd_completed t u,
      applyUpd_message t u, applyUpd_files t u⟩
  · intro h
    exact update_task_missing h u

/-- Witness for C4 at a concrete registry holding one task. -/
theorem claim_C4_witness :
    ((fun k => if k = "t" then some (freshTask 1) else none : Registry) "t"
        = some (freshTask 1)) ∧
    update_task (fun k => if k = "t" then some (freshTask 1) else none)
        "t" { file_path := some "a.mp3" } "t"
      = some (applyUpd (freshTask 1) { file_path := some "a.mp3" }) ∧
    (applyUpd (freshTask 1) { file_path := some "a.mp3" }).file_paths
      = (freshTask 1).file_paths ++ ["a.mp3"] := by
  refine ⟨rfl, ?_, ?_⟩
  · exact ((claim_C4_update_frame _ "t" _).1 (freshTask 1) rfl).1
  · have h := ((claim_C4_update_frame
      (fun k => if k = "t" then some (freshTask 1) else none)
      "t" { file_path := some "a.mp3" }).1 (freshTask 1) rfl).2.2.2.2.2.2.2
    simpa using h

/-- Counterexample to C4 as stated: the claim demands that a provided file
path is always appended, but `update_task` with the provided (empty) path
`""` leaves the record unchanged — `if file_path:` is false for `""`. -/
theorem claim_C4_counterexample :
    update_task
        (fun k => if k = "t" then
          some { status := .pending, progress := 0, message := "m",
                 total_videos := 1, completed_videos := 0, file_paths := [] }
          else none)
        "t" { file_path := some "" } "t"
      = some { status := .pending, progress := 0, message := "m",
               total_videos := 1, completed_videos := 0, file_paths := [] } ∧
    ([] : List String) ≠ [""] := by
  constructor
  · rfl
  · decide

/-! ## C10: the file-path list is append-only -/

theorem applyOps_lookup_prefix :
    ∀ (ops : List RegOp) (r : Registry) (task_id : String) (t : Task),
      opsFresh r ops → r task_id = some t →
      ∃ t2, applyOps r ops task_id = some t2 ∧ t.file_paths <+: t2.file_paths := by
  intro ops
  induction ops with
  | nil =>
    intro r task_id t _ h
    exact ⟨t, h, List.prefix_refl _⟩
  | cons op ops ih =>
    intro r task_id t hwf h
    obtain ⟨hop, hwf2⟩ := hwf
    cases op with
    | create id2 n =>
      have hne : task_id ≠ id2 := by
        intro he
        rw [he, hop] at h
        exact Option.noConfusion h
      have h2 : applyOp r (.create id2 n) task_id = some t := by
        simp [applyOp, create_task, hne, h]
      exact ih _ _ _ hwf2 h2
    | update id2 u =>
      cases hr2 : r id2 with
      | none =>
        have h2 : applyOp r (.update id2 u) task_id = some t := by
          simp [applyOp, update_task_missing hr2, h]
        exact ih _ _ _ hwf2 h2
      | some t2 =>
        by_cases heq : task_id = id2
        · subst heq
          have ht2 : t2 = t := by
            rw [h] at hr2
            exact (Option.some.injEq _ _).mp hr2.symm
          subst ht2
          have h2 : applyOp r (.update task_id u) task_id = some (applyUpd t2 u) := by
            simp [applyOp, update_task_found hr2]
          obtain ⟨t3, h3, hp3⟩ := ih _ _ _ hwf2 h2
          refine ⟨t3, h3, ?_⟩
          refine List.IsPrefix.trans ?_ hp3
          rw [applyUpd_files]
          exact List.prefix_append _ _
        · have h2 : applyOp r (.update id2 u) task_id = some t := by
            simp [applyOp, update_task_found hr2, heq, h]
          exact ih _ _ _ hwf2 h2

/-- **C10.** The recorded file-path list is append-only: `create_task`
installs an empty list; each `update_task` leaves the addressed list
unchanged or appends exactly one path at its end; and across any sequence of
`create_task`/`update_task` operations (creations using fresh ids, as
`uuid4` guarantees), the previously recorded list of an existing task stays
a prefix of the resulting list — every path and their relative order are
preserved while the record exists. -/
theorem claim_C10_append_only :
    (∀ (r : Registry) (id : String) (n : ℕ),
      create_task r id n id = some (freshTask n) ∧ (freshTask n).file_paths = []) ∧
    (∀ (r : Registry) (id : String) (u : UpdateCall) (t : Task), r id = some t →
      ∃ t2, update_task r id u id = some t2 ∧
        (t2.file_paths = t.file_paths ∨ ∃ p, t2.file_paths = t.file_paths ++ [p])) ∧
    (∀ (ops : List RegOp) (r : Registry) (id : String) (t : Task),
      opsFresh r ops → r id = some t →
      ∃ t2, applyOps r ops id = some t2 ∧ t.file_paths <+: t2.file_paths) := by
  refine ⟨fun r id n => ⟨by simp [create_task], rfl⟩, ?_, applyOps_lookup_prefix⟩
  intro r id u t h
  refine ⟨applyUpd t u, by rw [update_task_found h]; simp, ?_⟩
  rw [applyUpd_files]
  cases hf : u.file_path with
  | none => left; simp
  | some f =>
    by_cases hfe : f = ""
    · left; simp [hfe]
    · right; exact ⟨f, by simp [hfe]⟩

/-- Witness for C10: a two-operation sequence (a fresh creation of another
task, then an append on ours) keeps our recorded path list as a prefix. -/
theorem claim_C10_witness :
    ∃ t2, applyOps (fun k => if k = "t" then some (freshTask 1) else none)
        [RegOp.create "a" 2, RegOp.update "t" { file_path := some "p1" }] "t"
      = some t2 ∧ (freshTask 1).file_paths <+: t2.file_paths :=
  claim_C10_append_only.2.2
    [RegOp.create "a" 2, RegOp.update "t" { file_path := some "p1" }]
    (fun k => if k = "t" then some (freshTask 1) else none)
    "t" (freshTask 1) ⟨rfl, trivial, trivial⟩ rfl

/-! ## C8: URL validation -/

/-- **C8 (amended).** `is_valid_youtube_url` is true exactly when one of the
extractors returns a value (for every URL); the canonical video URL
containing `watch?v=abc123` extracts video id `abc123`; the canonical
playlist URL containing `list=PL123` extracts playlist id `PL123`; a URL
matching none of the patterns is invalid; and a URL containing both markers
yields both identifiers and is valid. (The patterns require the
`youtube.com/` or `youtu.be/` context, so this holds for URLs of that shape
rather than for arbitrary strings containing `watch?v=abc123`.) -/
theorem claim_C8_url_validation :
    (∀ url, is_valid_youtube_url url =
      ((extract_video_id url).isSome || (extract_playlist_id url).isSome)) ∧
    extract_video_id "https://www.youtube.com/watch?v=abc123" = some "abc123" ∧
    extract_playlist_id "https://www.youtube.com/playlist?list=PL123" = some "PL123" ∧
    (extract_video_id "https://example.com/nothing" = none ∧
      extract_playlist_id "https://example.com/nothing" = none ∧
      is_valid_youtube_url "https://example.com/nothing" = false) ∧
    (extract_video_id "https://www.youtube.com/watch?v=abc123&list=PL123" = some "abc123" ∧
      extract_playlist_id "https://www.youtube.com/watch?v=abc123&list=PL123" = some "PL123" ∧
      is_valid_youtube_url "https://www.youtube.com/watch?v=abc123&list=PL123" = true) :=
  ⟨fun _ => rfl, by decide, by decide, by decide, by decide⟩

/-- Counterexample to C8 as stated: the string `"watch?v=abc123"` contains
`watch?v=abc123`, yet `extract_video_id` returns nothing (the pattern
requires the `youtube.com/` prefix), refuting "for every URL containing
`watch?v=abc123`, `extract_video_id` returns `abc123`". -/
theorem claim_C8_counterexample :
    strContains "watch?v=abc123" "watch?v=abc123" = true ∧
    extract_video_id "watch?v=abc123" = none ∧
    extract_video_id "watch?v=abc123" ≠ some "abc123" := by
  refine ⟨by decide, by decide, ?_⟩
  decide

/-! ## C9: the `is_playlist` request field is dead -/

/-- **C9.** For every pair of `POST /api/info` (resp. `POST /api/download`)
requests whose bodies differ only in `is_playlist`, the handler's outcome is
identical — the field is never consulted; and playlist-ness is inferred
solely from whether the URL contains the substring `"list="`: for a valid
URL containing it the info handler runs the playlist lookup, otherwise the
single-video lookup. -/
theorem claim_C9_playlist_flag_dead :
    (∀ url p1 p2 env,
      get_video_info_route ⟨url, p1⟩ env = get_video_info_route ⟨url, p2⟩ env) ∧
    (∀ url p1 p2 (r : Registry) new_id,
      download_video_route ⟨url, p1⟩ r new_id = download_video_route ⟨url, p2⟩ r new_id) ∧
    (∀ url p env, is_valid_youtube_url url = true → strContains url "list=" = true →
      get_video_info_route ⟨url, p⟩ env =
        (if env.playlistResult.2 = [] then .httpError 404 "Playlist not found or empty"
         else .ok true env.playlistResult.2 env.playlistResult.1)) ∧
    (∀ url p env, is_valid_youtube_url url = true → strContains url "list=" = false →
      get_video_info_route ⟨url, p⟩ env =
        (match env.videoResult with
          | none => InfoOutcome.httpError 404 "Video not found"
          | some v => InfoOutcome.ok false [v] none)) := by
  refine ⟨fun _ _ _ _ => rfl, fun _ _ _ _ _ => rfl, ?_, ?_⟩
  · intro url p env hv hl
    simp [get_video_info_route, hv, hl]
  · intro url p env hv hl
    simp [get_video_info_route, hv, hl]

/-- Witness for C9 at a concrete valid playlist URL and environment. -/
theorem claim_C9_witness :
    get_video_info_route
        ⟨"https://www.youtube.com/playlist?list=PL123", false⟩
        ⟨(some "My list", [⟨"v1", "T1", 10, "", true⟩]), none⟩ =
      .ok true [⟨"v1", "T1", 10, "", true⟩] (some "My list") := by
  have h := claim_C9_playlist_flag_dead.2.2.1
    "https://www.youtube.com/playlist?list=PL123" false
    ⟨(some "My list", [⟨"v1", "T1", 10, "", true⟩]), none⟩
    (by decide) (by decide)
  simpa using h

/-! ## C6: the per-file download route -/

theorem pyIndex_some_lt {l : List String} {i : ℤ} {fp : String}
    (h : pyIndex l i = some fp) : l ≠ [] ∧ i < (l.length : ℤ) := by
  unfold pyIndex at h
  split_ifs at h with h0 h1
  · have hlt := List.getElem?_eq_some_iff.mp h
    obtain ⟨hl, _⟩ := hlt
    constructor
    · intro he
      subst he
      simp at hl
    · have : i.toNat < l.length := hl
      omega
  · constructor
    · intro he
      subst he
      simp at h1
      omega
    · omega

/-- **C6 (amended).** For `GET /api/download-single/{task_id}/{file_index}`:
a non-`completed` task yields the 400 `"Task not completed"` error; an empty
file list or an index `≥` the list length yields the 404 `"File not found"`
error; a negative index below `-len(files)` escapes the bounds check and the
Python subscription raises an uncaught `IndexError` (an HTTP 500, not the
404 the original claim demands); an in-range subscription (including the
Python wrap-around of negative indices `≥ -len(files)`) whose file no longer
exists on disk yields the 404; and otherwise the file is streamed as
`audio/mpeg` with its deletion scheduled 30 seconds later. -/
theorem claim_C6_file_route (r : Registry) (disk : List String)
    (task_id : String) (i : ℤ) :
    ((get_task r task_id).status ≠ .completed →
      download_single_from_playlist r disk task_id i =
        .httpError 400 "Task not completed") ∧
    ((get_task r task_id).status = .completed →
      (get_task_files r task_id = [] ∨
        ((get_task_files r task_id).length : ℤ) ≤ i) →
      download_single_from_playlist r disk task_id i =
        .httpError 404 "File not found") ∧
    ((get_task r task_id).status = .completed →
      get_task_files r task_id ≠ [] →
      i + ((get_task_files r task_id).length : ℤ) < 0 →
      download_single_from_playlist r disk task_id i = .uncaughtError) ∧
    (∀ fp, (get_task r task_id).status = .completed →
      pyIndex (get_task_files r task_id) i = some fp →
      fp ∉ disk →
      download_single_from_playlist r disk task_id i =
        .httpError 404 "File not found") ∧
    (∀ fp, (get_task r task_id).status = .completed →
      pyIndex (get_task_files r task_id) i = some fp →
      fp ∈ disk →
      download_single_from_playlist r disk task_id i =
        .stream fp (safeFileName fp i) "audio/mpeg" 30) := by
  refine ⟨?_, ?_, ?_, ?_, ?_⟩
  · intro h
    simp [download_single_from_playlist, h]
  · intro hs hb
    simp [download_single_from_playlist, hs, hb]
  · intro hs hne hlt
    have hguard : ¬(get_task_files r task_id = [] ∨
        ((get_task_files r task_id).length : ℤ) ≤ i) := by
      push_neg
      refine ⟨hne, ?_⟩
      have : 0 ≤ ((get_task_files r task_id).length : ℤ) := by positivity
      omega
    have hidx : pyIndex (get_task_files r task_id) i = none := by
      unfold pyIndex
      have h1 : ¬(0 : ℤ) ≤ i := by omega
      have h2 : ¬(0 : ℤ) ≤ i + (get_task_files r task_id).length := by omega
      simp [h1, h2]
    simp [download_single_from_playlist, hs, hguard, hidx]
  · intro fp hs hidx hdisk
    have hg := pyIndex_some_lt hidx
    have hguard : ¬(get_task_files r task_id = [] ∨
        ((get_task_files r task_id).length : ℤ) ≤ i) := by
      push_neg
      exact ⟨hg.1, by omega⟩
    simp [download_single_from_playlist, hs, hguard, hidx, hdisk]
  · intro fp hs hidx hdisk
    have hg := pyIndex_some_lt hidx
    have hguard : ¬(get_task_files r task_id = [] ∨
        ((get_task_files r task_id).length : ℤ) ≤ i) := by
      push_neg
      exact ⟨hg.1, by omega⟩
    simp [download_single_from_playlist, hs, hguard, hidx, hdisk]

/-- Witness for C6: the happy path at a concrete completed task streams the
recorded file with a 30-second scheduled deletion. -/
theorem claim_C6_witness :
    download_single_from_playlist
        (fun k => if k = "t" then
          some { status := .completed, progress := 100, message := "done",
                 total_videos := 1, completed_videos := 1,
                 file_paths := ["downloads/a.mp3"] }
          else none)
        ["downloads/a.mp3"] "t" 0 =
      .stream "downloads/a.mp3" (safeFileName "downloads/a.mp3" 0) "audio/mpeg" 30 :=
  (claim_C6_file_route _ _ "t" 0).2.2.2.2 "downloads/a.mp3" (by decide)
    (by decide) (by decide)

/-- Counterexample to C6 as stated: with a completed one-file task, index
`-2` is not within the recorded file list, so the claim demands a 404
`"File not found"`; the handler instead lets the Python `IndexError` escape
(an HTTP 500). -/
theorem claim_C6_counterexample :
    download_single_from_playlist
        (fun k => if k = "t" then
          some { status := .completed, progress := 100, message := "done",
                 total_videos := 1, completed_videos := 1,
                 file_paths := ["downloads/a.mp3"] }
          else none)
        ["downloads/a.mp3"] "t" (-2) = .uncaughtError ∧
    FileRouteOutcome.uncaughtError ≠ .httpError 404 "File not found" := by
  constructor
  · decide
  · decide

/-! ## Helper lemmas: folding update traces -/

theorem foldl_total (l : List UpdateCall) (t : Task) :
    (l.foldl applyUpd t).total_videos = t.total_videos := by
  induction l generalizing t with
  | nil => rfl
  | cons u us ih => rw [List.foldl_cons, ih, applyUpd_total]

theorem foldl_completed_of_none (l : List UpdateCall) (t : Task)
    (h : ∀ u ∈ l, u.completed_videos = none) :
    (l.foldl applyUpd t).completed_videos = t.completed_videos := by
  induction l generalizing t with
  | nil => rfl
  | cons u us ih =>
    rw [List.foldl_cons, ih _ (fun v hv => h v (List.mem_cons_of_mem u hv)),
      applyUpd_completed, h u (List.mem_cons_self u us)]
    rfl

theorem foldl_status_of_none (l : List UpdateCall) (t : Task)
    (h : ∀ u ∈ l, u.status = none) :
    (l.foldl applyUpd t).status = t.status := by
  induction l generalizing t with
  | nil => rfl
  | cons u us ih =>
    rw [List.foldl_cons, ih _ (fun v hv => h v (List.mem_cons_of_mem u hv)),
      applyUpd_status, h u (List.mem_cons_self u us)]
    rfl

theorem completedBounded_cons (N : ℕ) (t : Task) (u : UpdateCall)
    (l : List UpdateCall) :
    completedBounded N t (u :: l)
      = (decide (t.completed_videos ≤ N) && completedBounded N (applyUpd t u) l) :=
  rfl

theorem completedBounded_append (N : ℕ) (l1 l2 : List UpdateCall) (t : Task) :
    completedBounded N t (l1 ++ l2)
      = (completedBounded N t l1 && completedBounded N (l1.foldl applyUpd t) l2) := by
  induction l1 generalizing t with
  | nil =>
    cases l2 with
    | nil => simp [completedBounded]
    | cons u us => simp [completedBounded, Bool.and_assoc, Bool.and_self]
  | cons u us ih =>
    simp only [List.cons_append, completedBounded, List.foldl_cons, List.append_eq,
      ih, Bool.and_assoc]

theorem completedBounded_of_none (N : ℕ) (l : List UpdateCall) (t : Task)
    (h : ∀ u ∈ l, u.completed_videos = none) (ht : t.completed_videos ≤ N) :
    completedBounded N t l = true := by
  induction l generalizing t with
  | nil => simpa [completedBounded]
  | cons u us ih =>
    simp only [completedBounded, Bool.and_eq_true, decide_eq_true_eq]
    refine ⟨ht, ih _ (fun v hv => h v (List.mem_cons_of_mem u hv)) ?_⟩
    rw [applyUpd_completed, h u (List.mem_cons_self u us)]
    exact ht

theorem runHook_mem (es : List HookEvent) (last : ℚ) (u : UpdateCall)
    (hu : u ∈ runHook last es) :
    u.status = none ∧ u.completed_videos = none := by
  induction es generalizing last with
  | nil => simp [runHook] at hu
  | cons e es ih =>
    cases e with
    | downloading p =>
      cases p with
      | none => exact ih _ (by simpa [runHook, hookStep] using hu)
      | some q =>
        by_cases h5 : 5 ≤ pyAbs (q - last)
        · rw [runHook, hookStep] at hu
          simp only [if_pos h5] at hu
          rcases List.mem_cons.mp hu with he | hm
          · subst he; exact ⟨rfl, rfl⟩
          · exact ih _ hm
        · rw [runHook, hookStep] at hu
          simp only [if_neg h5] at hu
          exact ih _ hu
    | finished =>
      rw [runHook, hookStep] at hu
      rcases List.mem_cons.mp hu with he | hm
      · subst he; exact ⟨rfl, rfl⟩
      · exact ih _ hm
    | otherEvent => exact ih _ (by simpa [runHook, hookStep] using hu)

/-! ## Helper lemmas: the playlist loop -/

theorem itemUpdates_shape (nfkd : String → String) (dir fmt : String)
    (total idx c : ℕ) (it : ItemRun) :
    (∀ u ∈ (itemUpdates nfkd dir fmt total idx c it).1,
      u.status = none ∧ (u.completed_videos = none ∨ u.completed_videos = some (c + 1))) ∧
    ((itemUpdates nfkd dir fmt total idx c it).2 = c ∨
      (itemUpdates nfkd dir fmt total idx c it).2 = c + 1) := by
  obtain ⟨vid, info, dlE, fod⟩ := it
  cases info <;> cases dlE <;> cases fod <;>
    simp [itemUpdates] <;> simp_all

theorem playlistLoop_status_none (nfkd : String → String) (dir fmt : String)
    (total : ℕ) :
    ∀ (its : List ItemRun) (idx c : ℕ) (u : UpdateCall),
      u ∈ (playlistLoop nfkd dir fmt total idx c its).1 → u.status = none := by
  intro its
  induction its with
  | nil => intro idx c u hu; simp [playlistLoop] at hu
  | cons it its ih =>
    intro idx c u hu
    rw [playlistLoop] at hu
    rcases List.mem_append.mp hu with hm | hm
    · exact ((itemUpdates_shape nfkd dir fmt total idx c it).1 u hm).1
    · exact ih _ _ _ hm

theorem playlistLoop_count (nfkd : String → String) (dir fmt : String)
    (total : ℕ) :
    ∀ (its : List ItemRun) (idx c : ℕ),
      (playlistLoop nfkd dir fmt total idx c its).2 = c + succCount its := by
  intro its
  induction its with
  | nil => intro idx c; simp [playlistLoop, succCount]
  | cons it its ih =>
    intro idx c
    rw [playlistLoop]
    simp only
    rw [ih]
    obtain ⟨vid, info, dlE, fod⟩ := it
    cases info <;> cases dlE <;> cases fod <;>
      simp [itemUpdates, succCount, List.countP_cons] <;> omega

theorem playlistLoop_fold_completed (nfkd : String → String) (dir fmt : String)
    (total : ℕ) :
    ∀ (its : List ItemRun) (idx c : ℕ) (t : Task), t.completed_videos = c →
      ((playlistLoop nfkd dir fmt total idx c its).1.foldl applyUpd t).completed_videos
        = (playlistLoop nfkd dir fmt total idx c its).2 := by
  intro its
  induction its with
  | nil => intro idx c t ht; simpa [playlistLoop]
  | cons it its ih =>
    intro idx c t ht
    obtain ⟨vid, info, dlE, fod⟩ := it
    cases info with
    | none =>
      simp only [playlistLoop, itemUpdates, List.nil_append, List.foldl_nil]
      exact ih _ _ _ ht
    | some title =>
      cases dlE with
      | true =>
        simp only [playlistLoop, itemUpdates, if_true, List.cons_append, List.nil_append,
          List.foldl_cons]
        exact ih _ _ _ (by rw [applyUpd_completed]; simpa using ht)
      | false =>
        cases fod with
        | false =>
          simp only [playlistLoop, itemUpdates, Bool.false_eq_true, if_false,
            List.cons_append, List.nil_append, List.foldl_cons]
          exact ih _ _ _ (by rw [applyUpd_completed]; simpa using ht)
        | true =>
          simp only [playlistLoop, itemUpdates, Bool.false_eq_true, if_false, if_true,
            List.cons_append, List.nil_append, List.foldl_cons]
          exact ih _ _ _ (by rw [applyUpd_completed, applyUpd_completed]; rfl)

theorem playlistLoop_bounded (nfkd : String → String) (dir fmt : String)
    (N : ℕ) :
    ∀ (its : List ItemRun) (idx c : ℕ) (t : Task), t.completed_videos = c →
      c + its.length ≤ N →
      completedBounded N t (playlistLoop nfkd dir fmt N idx c its).1 = true := by
  intro its
  induction its with
  | nil =>
    intro idx c t ht hb
    simp only [playlistLoop, completedBounded, decide_eq_true_eq]
    omega
  | cons it its ih =>
    intro idx c t ht hb
    simp only [List.length_cons] at hb
    obtain ⟨vid, info, dlE, fod⟩ := it
    cases info with
    | none =>
      simp only [playlistLoop, itemUpdates, List.nil_append]
      exact ih _ _ _ ht (by omega)
    | some title =>
      have hmsg : ∀ t2 : Task,
          (applyUpd t2 { message := some ("Downloading " ++ toString (idx + 1) ++ "/" ++
            toString N ++ ": " ++ title.take 50 ++ "...") }).completed_videos
            = t2.completed_videos := by
        intro t2
        rw [applyUpd_completed]
        rfl
      cases dlE with
      | true =>
        simp only [playlistLoop, itemUpdates, if_true, List.cons_append, List.nil_append]
        simp only [completedBounded, Bool.and_eq_true, decide_eq_true_eq]
        refine ⟨by omega, ?_⟩
        exact ih _ _ _ (by rw [hmsg]; exact ht) (by omega)
      | false =>
        cases fod with
        | false =>
          simp only [playlistLoop, itemUpdates, Bool.false_eq_true, if_false,
            List.cons_append, List.nil_append]
          simp only [completedBounded, Bool.and_eq_true, decide_eq_true_eq]
          refine ⟨by omega, ?_⟩
          exact ih _ _ _ (by rw [hmsg]; exact ht) (by omega)
        | true =>
          simp only [playlistLoop, itemUpdates, Bool.false_eq_true, if_false, if_true,
            List.cons_append, List.nil_append]
          simp only [completedBounded, Bool.and_eq_true, decide_eq_true_eq]
          refine ⟨by omega, ?_, ?_⟩
          · rw [hmsg]
            omega
          · refine ih _ _ _ ?_ (by omega)
            rw [applyUpd_completed, hmsg]
            rfl

theorem playlistLoop_msg_count (nfkd : String → String) (dir fmt : String)
    (total : ℕ) :
    ∀ (its : List ItemRun) (idx c : ℕ),
      (playlistLoop nfkd dir fmt total idx c its).1.countP (fun u => u.message.isSome)
        = its.countP (fun it => it.info.isSome) := by
  intro its
  induction its with
  | nil => intro idx c; simp [playlistLoop]
  | cons it its ih =>
    intro idx c
    rw [playlistLoop]
    simp only [List.countP_append]
    rw [ih]
    obtain ⟨vid, info, dlE, fod⟩ := it
    cases info <;> cases dlE <;> cases fod <;>
      simp [itemUpdates, List.countP_cons] <;> omega

/-- A `String` append with a non-empty left part is non-empty. -/
theorem str_append_ne_empty (s t : String) (h : s.data ≠ []) : s ++ t ≠ "" := by
  intro he
  apply h
  have hd := congrArg String.data he
  rw [String.data_append] at hd
  exact List.append_eq_nil.mp hd |>.1

theorem data_append_ne (s t : String) (h : s.data ≠ []) : (s ++ t).data ≠ [] := by
  rw [String.data_append]
  intro he
  exact h (List.append_eq_nil.mp he).1

theorem str_ne_empty_of_data {s : String} (h : s.data ≠ []) : s ≠ "" := by
  intro he
  subst he
  exact h rfl

theorem noTerm_of_cons_concat (u0 : UpdateCall) (l : List UpdateCall)
    (tm : UpdateCall) (h0 : isTerminalStatus u0.status = false)
    (hl : ∀ u ∈ l, u.status = none) :
    noStatusAfterTerminal (u0 :: (l ++ [tm])) = true := by
  have he : u0 :: (l ++ [tm]) = (u0 :: l) ++ [tm] := by simp
  rw [noStatusAfterTerminal, he, List.dropLast_concat, List.all_eq_true]
  intro u hu
  rcases List.mem_cons.mp hu with he2 | hm
  · subst he2
    simp [h0]
  · rw [hl u hm]
    rfl

/-! ## C1: task lifecycle invariant -/

/-- **C1.** For a task created with `total_videos = N` (`N = 1` for
`download_single_video`, `N = len(video_ids)` for `download_playlist`),
folding the owning workflow's update sequence over the fresh record keeps
`completed_videos ≤ N` at every intermediate point; and in every workflow
trace all updates except the final one carry a non-terminal status — so once
the workflow has set `completed` or `failed` (only ever its last update), it
issues no further status-changing update on the task. -/
theorem claim_C1_lifecycle_invariant (nfkd : String → String) (dir fmt : String)
    (env : SingleEnv) (items : List ItemRun) :
    (completedBounded 1 (freshTask 1) (download_single_video nfkd dir fmt env) = true ∧
      noStatusAfterTerminal (download_single_video nfkd dir fmt env) = true) ∧
    (completedBounded items.length (freshTask items.length)
        (download_playlist nfkd dir fmt items) = true ∧
      noStatusAfterTerminal (download_playlist nfkd dir fmt items) = true) := by
  constructor
  · -- single-video workflow
    cases hinfo : env.info with
    | none =>
      constructor
      · simp only [download_single_video, hinfo]
        decide
      · simp only [download_single_video, hinfo]
        decide
    | some title =>
      have hronehook : ∀ u ∈ runHook 0 env.events, u.completed_videos = none :=
        fun u hu => (runHook_mem env.events 0 u hu).2
      have ht1 : (applyUpd (freshTask 1)
          { status := some .processing
            message := some "Fetching video information..."
            progress := some 10 }).completed_videos = 0 := by
        rw [applyUpd_completed]; rfl
      have ht2 : ((runHook 0 env.events).foldl applyUpd (applyUpd (freshTask 1)
          { status := some .processing
            message := some "Fetching video information..."
            progress := some 10 })).completed_videos = 0 := by
        rw [foldl_completed_of_none _ _ hronehook, ht1]
      constructor
      · simp only [download_single_video, hinfo]
        rw [completedBounded_cons, completedBounded_append,
          Bool.and_eq_true, Bool.and_eq_true]
        refine ⟨by decide, completedBounded_of_none _ _ _ hronehook (by omega), ?_⟩
        cases hdl : env.dlError with
        | some e =>
          apply completedBounded_of_none
          · intro u hu
            simp only [List.mem_singleton] at hu
            subst hu
            rfl
          · omega
        | none =>
          by_cases hfd : env.fileOnDisk = true
          · rw [if_pos hfd]
            simp only [completedBounded, Bool.and_eq_true, decide_eq_true_eq]
            refine ⟨by omega, ?_⟩
            rw [applyUpd_completed, ht2]
            simp
          · rw [if_neg hfd]
            apply completedBounded_of_none
            · intro u hu
              simp only [List.mem_singleton] at hu
              subst hu
              rfl
            · omega
      · simp only [download_single_video, hinfo]
        cases hdl : env.dlError with
        | some e =>
          exact noTerm_of_cons_concat _ _ _ rfl
            (fun u hu => (runHook_mem env.events 0 u hu).1)
        | none =>
          by_cases hfd : env.fileOnDisk = true
          · rw [if_pos hfd]
            exact noTerm_of_cons_concat _ _ _ rfl
              (fun u hu => (runHook_mem env.events 0 u hu).1)
          · rw [if_neg hfd]
            exact noTerm_of_cons_concat _ _ _ rfl
              (fun u hu => (runHook_mem env.events 0 u hu).1)
  · -- playlist workflow
    have hp0 : (applyUpd (freshTask items.length)
        { status := some .processing
          message := some ("Starting download of " ++ toString items.length
            ++ " videos...") }).completed_videos = 0 := by
      rw [applyUpd_completed]; rfl
    constructor
    · simp only [download_playlist]
      rw [List.cons_append, completedBounded_cons, completedBounded_append,
        Bool.and_eq_true, Bool.and_eq_true]
      refine ⟨by simp [freshTask], ?_, ?_⟩
      · exact playlistLoop_bounded nfkd dir fmt items.length items 0 0 _ hp0 (by omega)
      · have hc2 : ((playlistLoop nfkd dir fmt items.length 0 0 items).1.foldl applyUpd
            (applyUpd (freshTask items.length)
              { status := some .processing
                message := some ("Starting download of " ++ toString items.length
                  ++ " videos...") })).completed_videos
            = succCount items := by
          rw [playlistLoop_fold_completed nfkd dir fmt items.length items 0 0 _ hp0,
            playlistLoop_count]
          omega
        have hsb : succCount items ≤ items.length := List.countP_le_length _
        apply completedBounded_of_none
        · intro u hu
          simp only [List.mem_singleton] at hu
          subst hu
          split <;> rfl
        · omega
    · simp only [download_playlist]
      exact noTerm_of_cons_concat _ _ _ rfl
        (fun u hu => playlistLoop_status_none nfkd dir fmt items.length items 0 0 u hu)

/-! ## C2: playlist end state -/

/-- **C2.** For every playlist download over `items` (total = number of
items): the final task keeps `total_videos = len(items)`; every item whose
metadata lookup succeeds gets its per-item message update regardless of
failures on other items (the loop skips a failed item and continues); and
after the loop, if at least one item produced its output file the task ends
`completed` with progress `100.0`, message
`"Completed! Downloaded {completed}/{total} videos"` and `completed_videos`
equal to the number of successful items, while if zero items succeeded it
ends `failed` with message `"No videos were downloaded successfully"`. -/
theorem claim_C2_playlist_end_state (nfkd : String → String) (dir fmt : String)
    (items : List ItemRun) :
    let t := (download_playlist nfkd dir fmt items).foldl applyUpd
      (freshTask items.length)
    let s := succCount items
    t.total_videos = items.length ∧
    (playlistLoop nfkd dir fmt items.length 0 0 items).1.countP
        (fun u => u.message.isSome) = items.countP (fun it => it.info.isSome) ∧
    (if 0 < s then
      t.status = .completed ∧ t.progress = 100 ∧
      t.message = "Completed! Downloaded " ++ toString s ++ "/"
        ++ toString items.length ++ " videos" ∧
      t.completed_videos = s
     else
      t.status = .failed ∧
      t.message = "No videos were downloaded successfully" ∧
      t.completed_videos = 0) := by
  intro t s
  have htr : t = applyUpd
      ((playlistLoop nfkd dir fmt items.length 0 0 items).1.foldl applyUpd
        (applyUpd (freshTask items.length)
          { status := some .processing
            message := some ("Starting download of " ++ toString items.length
              ++ " videos...") }))
      (if 0 < (playlistLoop nfkd dir fmt items.length 0 0 items).2 then
        { status := some .completed
          message := some ("Completed! Downloaded "
            ++ toString (playlistLoop nfkd dir fmt items.length 0 0 items).2 ++ "/"
            ++ toString items.length ++ " videos")
          progress := some 100 }
       else
        { status := some .failed
          message := some "No videos were downloaded successfully" }) := by
    show (download_playlist nfkd dir fmt items).foldl applyUpd
      (freshTask items.length) = _
    simp only [download_playlist, List.foldl_cons, List.foldl_append, List.foldl_nil]
  have hp0 : (applyUpd (freshTask items.length)
      { status := some .processing
        message := some ("Starting download of " ++ toString items.length
          ++ " videos...") }).completed_videos = 0 := by
    rw [applyUpd_completed]; rfl
  have hcount : (playlistLoop nfkd dir fmt items.length 0 0 items).2 = s := by
    rw [playlistLoop_count]
    omega
  have ht2c : ((playlistLoop nfkd dir fmt items.length 0 0 items).1.foldl applyUpd
      (applyUpd (freshTask items.length)
        { status := some .processing
          message := some ("Starting download of " ++ toString items.length
            ++ " videos...") })).completed_videos = s := by
    rw [playlistLoop_fold_completed nfkd dir fmt items.length items 0 0 _ hp0, hcount]
  have ht2t : ((playlistLoop nfkd dir fmt items.length 0 0 items).1.foldl applyUpd
      (applyUpd (freshTask items.length)
        { status := some .processing
          message := some ("Starting download of " ++ toString items.length
            ++ " videos...") })).total_videos = items.length := by
    rw [foldl_total, applyUpd_total]
    rfl
  refine ⟨?_, playlistLoop_msg_count nfkd dir fmt items.length items 0 0, ?_⟩
  · rw [htr, applyUpd_total, ht2t]
  · by_cases hs : 0 < s
    · have hterm : (if 0 < (playlistLoop nfkd dir fmt items.length 0 0 items).2 then
          ({ status := some .completed
             message := some ("Completed! Downloaded "
               ++ toString (playlistLoop nfkd dir fmt items.length 0 0 items).2 ++ "/"
               ++ toString items.length ++ " videos")
             progress := some 100 } : UpdateCall)
         else
          { status := some .failed
            message := some "No videos were downloaded successfully" }) =
          { status := some .completed
            message := some ("Completed! Downloaded " ++ toString s ++ "/"
              ++ toString items.length ++ " videos")
            progress := some 100 } := by
        rw [hcount, if_pos hs]
      rw [if_pos hs, htr, hterm]
      have hmne : ("Completed! Downloaded " ++ toString s ++ "/"
          ++ toString items.length ++ " videos") ≠ "" := by
        apply str_ne_empty_of_data
        apply data_append_ne
        apply data_append_ne
        apply data_append_ne
        apply data_append_ne
        decide
      refine ⟨?_, ?_, ?_, ?_⟩
      · rw [applyUpd_status]; rfl
      · rw [applyUpd_progress]; rfl
      · rw [applyUpd_message]
        simp only [if_neg hmne]
      · rw [applyUpd_completed]
        simpa using ht2c
    · have hterm : (if 0 < (playlistLoop nfkd dir fmt items.length 0 0 items).2 then
          ({ status := some .completed
             message := some ("Completed! Downloaded "
               ++ toString (playlistLoop nfkd dir fmt items.length 0 0 items).2 ++ "/"
               ++ toString items.length ++ " videos")
             progress := some 100 } : UpdateCall)
         else
          { status := some .failed
            message := some "No videos were downloaded successfully" }) =
          { status := some .failed
            message := some "No videos were downloaded successfully" } := by
        rw [hcount, if_neg hs]
      rw [if_neg hs, htr, hterm]
      refine ⟨?_, ?_, ?_⟩
      · rw [applyUpd_status]; rfl
      · rw [applyUpd_message]
        simp only [ne_eq, if_neg (by decide : ¬("No videos were downloaded successfully" = ""))]
      · rw [applyUpd_completed]
        simp only [Option.getD_none, ht2c]
        omega

/-! ## C5: the download progress hook -/

theorem appliedProgress_replicate_finished (k : ℕ) (last : ℚ) :
    appliedProgress last (List.replicate k .finished) = List.replicate k 80 := by
  induction k generalizing last with
  | zero => rfl
  | succ n ih =>
    rw [List.replicate_succ, List.replicate_succ]
    show ((runHook last (.finished :: List.replicate n .finished)).filterMap
      (fun u => u.progress)) = 80 :: List.replicate n 80
    rw [runHook, hookStep]
    simp only [List.filterMap_cons]
    exact congrArg (80 :: ·) (ih last)

theorem chain_cons_replicate (k : ℕ) (x y : ℚ) (h : y ≤ x) :
    List.Chain' (· ≤ ·) (y :: List.replicate k x) := by
  induction k generalizing y with
  | zero => simp
  | succ n ih =>
    rw [List.replicate_succ, List.chain'_cons]
    exact ⟨h, ih x le_rfl⟩

theorem hookChainAux :
    ∀ (ps : List ℚ) (k : ℕ) (L : ℚ), ps.Pairwise (· ≤ ·) →
      (∀ p ∈ ps, L - 5 < p ∧ p ≤ 100) → L ≤ 100 →
      List.Chain' (· ≤ ·) ((10 + L * (7 / 10)) ::
        appliedProgress L (ps.map (fun p => HookEvent.downloading (some p))
          ++ List.replicate k .finished)) := by
  intro ps
  induction ps with
  | nil =>
    intro k L _ _ hL
    simp only [List.map_nil, List.nil_append]
    rw [appliedProgress_replicate_finished]
    apply chain_cons_replicate
    nlinarith
  | cons p ps ih =>
    intro k L hpw hbd hL
    obtain ⟨hhead, hpw2⟩ := List.pairwise_cons.mp hpw
    have hp := hbd p (List.mem_cons_self p ps)
    simp only [List.map_cons, List.cons_append]
    by_cases h5 : 5 ≤ pyAbs (p - L)
    · have hple : L + 5 ≤ p := by
        rw [pyAbs] at h5
        split_ifs at h5 with hneg
        · linarith [hp.1]
        · linarith
      have happ : appliedProgress L (HookEvent.downloading (some p) ::
          (ps.map (fun q => HookEvent.downloading (some q)) ++ List.replicate k .finished))
          = (10 + p * (7 / 10)) :: appliedProgress p
              (ps.map (fun q => HookEvent.downloading (some q))
                ++ List.replicate k .finished) := by
        rw [appliedProgress, runHook, hookStep]
        simp only [if_pos h5, List.filterMap_cons]
        rfl
      rw [happ, List.chain'_cons]
      constructor
      · nlinarith
      · apply ih k p hpw2
        · intro q hq
          exact ⟨by linarith [hhead q hq], (hbd q (List.mem_cons_of_mem p hq)).2⟩
        · exact hp.2
    · have happ : appliedProgress L (HookEvent.downloading (some p) ::
          (ps.map (fun q => HookEvent.downloading (some q)) ++ List.replicate k .finished))
          = appliedProgress L
              (ps.map (fun q => HookEvent.downloading (some q))
                ++ List.replicate k .finished) := by
        rw [appliedProgress, runHook, hookStep]
        simp only [if_neg h5]
        rfl
      rw [happ]
      apply ih k L hpw2
      · intro q hq
        have hpq := hhead q hq
        have : L - 5 < p := hp.1
        exact ⟨by linarith, (hbd q (List.mem_cons_of_mem p hq)).2⟩
      · exact hL

/-- **C5 (amended).** For the single-video progress hook:
* a `downloading` event whose percent has moved fewer than 5 absolute points
  since the last recorded percent applies no update;
* an applied `downloading` update sets progress to `10 + percent * 0.7` (the
  10–80 band) and records the percent;
* a `finished` event always applies an update setting progress to `80`;
* a malformed percent applies nothing and does not fail the download; and
* provided the engine reports non-decreasing percents within `[0, 100]`
  followed only by `finished` events at the end (yt-dlp's behaviour for a
  single-file download), the applied updates' progress values are
  non-decreasing. (Without that assumption monotonicity fails — see the
  counterexample: a percent that drops by ≥ 5 points is applied.) -/
theorem claim_C5_progress_hook :
    (∀ last p, pyAbs (p - last) < 5 →
      hookStep last (.downloading (some p)) = (last, none)) ∧
    (∀ last p, 5 ≤ pyAbs (p - last) →
      hookStep last (.downloading (some p)) =
        (p, some { progress := some (10 + p * (7 / 10))
                   message := some ("Downloading: " ++ fmtPercent p ++ "%") })) ∧
    (∀ last, hookStep last .finished =
      (last, some { progress := some 80, message := some "Converting to MP3..." })) ∧
    (∀ last, hookStep last (.downloading none) = (last, none)) ∧
    (∀ (ps : List ℚ) (k : ℕ), ps.Pairwise (· ≤ ·) →
      (∀ p ∈ ps, 0 ≤ p ∧ p ≤ 100) →
      List.Chain' (· ≤ ·) (appliedProgress 0
        (ps.map (fun p => HookEvent.downloading (some p))
          ++ List.replicate k .finished))) := by
  refine ⟨?_, ?_, fun _ => rfl, fun _ => rfl, ?_⟩
  · intro last p h
    rw [hookStep, if_neg (by linarith)]
  · intro last p h
    rw [hookStep, if_pos h]
  · intro ps k hpw hbd
    have h := hookChainAux ps k 0 hpw
      (fun p hp => ⟨by linarith [(hbd p hp).1], (hbd p hp).2⟩) (by norm_num)
    exact h.tail

/-- Witness for C5: the throttle suppresses a 3-point move, a 7-point move
is applied in the 10–80 band, and the applied progress sequence for the
percent reports 20, 60 then `finished` is non-decreasing. -/
theorem claim_C5_witness :
    hookStep 0 (.downloading (some 3)) = (0, none) ∧
    hookStep 0 (.downloading (some 7)) =
      (7, some { progress := some (10 + 7 * (7 / 10))
                 message := some ("Downloading: " ++ fmtPercent 7 ++ "%") }) ∧
    List.Chain' (· ≤ ·) (appliedProgress 0
      ([20, 60].map (fun p => HookEvent.downloading (some p))
        ++ List.replicate 1 .finished)) := by
  refine ⟨?_, ?_, ?_⟩
  · exact claim_C5_progress_hook.1 0 3 (by norm_num [pyAbs])
  · exact claim_C5_progress_hook.2.1 0 7 (by norm_num [pyAbs])
  · refine claim_C5_progress_hook.2.2.2.2 [20, 60] 1 ?_ ?_
    · simp
      norm_num
    · intro p hp
      simp at hp
      rcases hp with h | h <;> rw [h] <;> norm_num

/-- Counterexample to C5 as stated: the hook applies a `downloading` update
for any percent moving at least 5 points in either direction, so the engine
reporting 50 then 10 yields applied progress 45 followed by 17 — a strictly
decreasing pair of applied updates. -/
theorem claim_C5_counterexample :
    appliedProgress 0 [HookEvent.downloading (some 50),
      HookEvent.downloading (some 10)] = [45, 17] ∧
    ¬ List.Chain' (· ≤ ·) (appliedProgress 0 [HookEvent.downloading (some 50),
      HookEvent.downloading (some 10)]) := by
  have h : appliedProgress 0 [HookEvent.downloading (some 50),
      HookEvent.downloading (some 10)] = [45, 17] := by
    norm_num [appliedProgress, runHook, hookStep, pyAbs, List.filterMap_cons]
  refine ⟨h, ?_⟩
  rw [h, List.chain'_cons]
  intro hc
  have := hc.1
  norm_num at this

/-! ## C7: helper lemmas on the sanitization pipeline -/

theorem mem_asciiIgnore {c : Char} {cs : List Char} (h : c ∈ asciiIgnore cs) :
    c ∈ cs ∧ c.toNat < 128 := by
  have := List.mem_filter.mp h
  exact ⟨this.1, by simpa using this.2⟩

theorem replacePass_mem {x : Char} {cs : List Char} {ch : Char}
    (h : x ∈ replacePass cs ch) : (x ∈ cs ∧ x ≠ ch) ∨ x = '_' := by
  obtain ⟨y, hy, hxy⟩ := List.mem_map.mp h
  by_cases hc : y = ch
  · right
    rw [← hxy, if_pos hc]
  · left
    rw [← hxy, if_neg hc]
    exact ⟨hy, hc⟩

theorem foldl_replacePass_mem :
    ∀ (L cs : List Char) (x : Char), '_' ∉ L → x ∈ L.foldl replacePass cs →
      (x ∈ cs ∨ x = '_') ∧ x ∉ L := by
  intro L
  induction L with
  | nil => intro cs x _ hx; exact ⟨Or.inl hx, List.not_mem_nil x⟩
  | cons ch L ih =>
    intro cs x hu hx
    rw [List.foldl_cons] at hx
    have hu2 : '_' ∉ L := fun h => hu (List.mem_cons_of_mem ch h)
    have hne : ch ≠ '_' := fun h => hu (h ▸ List.mem_cons_self ch L)
    obtain ⟨hor, hnotL⟩ := ih (replacePass cs ch) x hu2 hx
    rcases hor with hmem | hund
    · rcases replacePass_mem hmem with ⟨hcs, hxc⟩ | hund
      · exact ⟨Or.inl hcs, by simp [hxc, hnotL]⟩
      · refine ⟨Or.inr hund, ?_⟩
        subst hund
        simp only [List.mem_cons, not_or]
        exact ⟨fun h => hne h.symm, hnotL⟩
    · refine ⟨Or.inr hund, ?_⟩
      subst hund
      simp only [List.mem_cons, not_or]
      exact ⟨fun h => hne h.symm, hnotL⟩

theorem replaceInvalid_mem {x : Char} {cs : List Char}
    (h : x ∈ replaceInvalid cs) : (x ∈ cs ∨ x = '_') ∧ x ∉ invalidChars :=
  foldl_replacePass_mem invalidChars cs x (by decide) h

theorem splitAux_mem :
    ∀ (cs acc : List Char), (∀ c ∈ acc, pyIsSpace c = false) →
      ∀ w ∈ splitAux cs acc,
        w ≠ [] ∧ ∀ c ∈ w, (c ∈ cs ∨ c ∈ acc) ∧ pyIsSpace c = false := by
  intro cs
  induction cs with
  | nil =>
    intro acc hacc w hw
    rw [splitAux] at hw
    cases acc with
    | nil => simp at hw
    | cons a t =>
      simp only [List.isEmpty_cons, Bool.false_eq_true, if_false,
        List.mem_singleton] at hw
      subst hw
      refine ⟨by simp, ?_⟩
      intro c hc
      rw [List.mem_reverse] at hc
      exact ⟨Or.inr hc, hacc c hc⟩
  | cons c cs ih =>
    intro acc hacc w hw
    rw [splitAux] at hw
    by_cases hsp : pyIsSpace c = true
    · rw [if_pos hsp] at hw
      cases acc with
      | nil =>
        simp only [List.isEmpty_nil, if_true] at hw
        obtain ⟨hne, hmem⟩ := ih [] (by simp) w hw
        exact ⟨hne, fun d hd =>
          ⟨Or.inl (List.mem_cons_of_mem c ((hmem d hd).1.resolve_right
            (List.not_mem_nil d))), (hmem d hd).2⟩⟩
      | cons a t =>
        simp only [List.isEmpty_cons, Bool.false_eq_true, if_false,
          List.mem_cons] at hw
        rcases hw with hw | hw
        · subst hw
          refine ⟨by simp, ?_⟩
          intro d hd
          rw [List.mem_reverse] at hd
          exact ⟨Or.inr hd, hacc d hd⟩
        · obtain ⟨hne, hmem⟩ := ih [] (by simp) w hw
          exact ⟨hne, fun d hd =>
            ⟨Or.inl (List.mem_cons_of_mem c ((hmem d hd).1.resolve_right
              (List.not_mem_nil d))), (hmem d hd).2⟩⟩
    · rw [if_neg hsp] at hw
      have hacc2 : ∀ d ∈ c :: acc, pyIsSpace d = false := by
        intro d hd
        rcases List.mem_cons.mp hd with hd | hd
        · subst hd
          exact Bool.not_eq_true _ ▸ eq_false_of_ne_true hsp
        · exact hacc d hd
      obtain ⟨hne, hmem⟩ := ih (c :: acc) hacc2 w hw
      refine ⟨hne, ?_⟩
      intro d hd
      obtain ⟨hor, hs⟩ := hmem d hd
      refine ⟨?_, hs⟩
      rcases hor with hcs | hca
      · exact Or.inl (List.mem_cons_of_mem c hcs)
      · rcases List.mem_cons.mp hca with hd2 | hd2
        · exact Or.inl (hd2 ▸ List.mem_cons_self c cs)
        · exact Or.inr hd2

theorem joinSpace_single (w : List Char) : joinSpace [w] = w := rfl

theorem joinSpace_cons2 (w w2 : List Char) (ws : List (List Char)) :
    joinSpace (w :: w2 :: ws) = w ++ ' ' :: joinSpace (w2 :: ws) := rfl

theorem joinSpace_mem :
    ∀ (ws : List (List Char)) (x : Char), x ∈ joinSpace ws →
      (∃ w ∈ ws, x ∈ w) ∨ x = ' ' := by
  intro ws
  induction ws with
  | nil => intro x hx; simp [joinSpace] at hx
  | cons w ws ih =>
    intro x hx
    cases ws with
    | nil =>
      rw [joinSpace_single] at hx
      exact Or.inl ⟨w, List.mem_cons_self w [], hx⟩
    | cons w2 ws2 =>
      rw [joinSpace_cons2] at hx
      rcases List.mem_append.mp hx with hx | hx
      · exact Or.inl ⟨w, List.mem_cons_self _ _, hx⟩
      · rcases List.mem_cons.mp hx with hx | hx
        · exact Or.inr hx
        · rcases ih x hx with ⟨w3, hw3, hxw3⟩ | hsp
          · exact Or.inl ⟨w3, List.mem_cons_of_mem w hw3, hxw3⟩
          · exact Or.inr hsp

theorem noDoubleWs_of_noWs :
    ∀ (w : List Char), (∀ c ∈ w, pyIsSpace c = false) → noDoubleWs w = true := by
  intro w
  induction w with
  | nil => intro _; rfl
  | cons c rest ih =>
    intro h
    cases rest with
    | nil => rfl
    | cons c2 t =>
      rw [noDoubleWs, h c (List.mem_cons_self _ _)]
      simp only [Bool.false_and, Bool.not_false, Bool.true_and]
      exact ih (fun d hd => h d (List.mem_cons_of_mem c hd))

theorem headNoWs_of_noWs {w : List Char} (h : ∀ c ∈ w, pyIsSpace c = false) :
    headNoWs w = true := by
  cases w with
  | nil => rfl
  | cons c t =>
    rw [headNoWs]
    simp only [List.head?_cons]
    rw [h c (List.mem_cons_self _ _)]
    rfl

theorem lastNoWs_of_noWs {w : List Char} (h : ∀ c ∈ w, pyIsSpace c = false) :
    lastNoWs w = true := by
  rw [lastNoWs]
  exact headNoWs_of_noWs (fun c hc => h c (List.mem_reverse.mp hc))

theorem noDoubleWs_tail {c : Char} {cs : List Char}
    (h : noDoubleWs (c :: cs) = true) : noDoubleWs cs = true := by
  cases cs with
  | nil => rfl
  | cons c2 t =>
    rw [noDoubleWs, Bool.and_eq_true] at h
    exact h.2

theorem noDoubleWs_append :
    ∀ (xs ys : List Char), noDoubleWs xs = true → noDoubleWs ys = true →
      (∀ a b, xs.getLast? = some a → ys.head? = some b →
        pyIsSpace a = false ∨ pyIsSpace b = false) →
      noDoubleWs (xs ++ ys) = true := by
  intro xs
  induction xs with
  | nil => intro ys _ hy _; simpa using hy
  | cons a xs ih =>
    intro ys hx hy hb
    cases xs with
    | nil =>
      cases ys with
      | nil => rfl
      | cons b ys2 =>
        simp only [List.singleton_append, noDoubleWs, Bool.and_eq_true]
        refine ⟨?_, hy⟩
        rcases hb a b rfl rfl with h | h <;> simp [h]
    | cons a2 xs2 =>
      rw [List.cons_append, List.cons_append, noDoubleWs]
      rw [noDoubleWs, Bool.and_eq_true] at hx
      rw [Bool.and_eq_true]
      refine ⟨hx.1, ?_⟩
      rw [← List.cons_append]
      refine ih ys hx.2 hy ?_
      intro p q hp hq
      refine hb p q ?_ hq
      rw [List.getLast?_cons_cons]
      exact hp

theorem headNoWs_append_left {w ys : List Char} (hne : w ≠ [])
    (h : headNoWs w = true) : headNoWs (w ++ ys) = true := by
  cases w with
  | nil => exact absurd rfl hne
  | cons c t =>
    rw [List.cons_append, headNoWs] at *
    simpa using h

theorem lastNoWs_append_right {xs ys : List Char} (hne : ys ≠ [])
    (h : lastNoWs ys = true) : lastNoWs (xs ++ ys) = true := by
  rw [lastNoWs, List.reverse_append]
  rw [lastNoWs] at h
  exact headNoWs_append_left (by simpa using hne) h

theorem joinSpace_ne_nil {w : List Char} {ws : List (List Char)} (hne : w ≠ []) :
    joinSpace (w :: ws) ≠ [] := by
  cases ws with
  | nil => simpa [joinSpace_single] using hne
  | cons w2 ws2 =>
    rw [joinSpace_cons2]
    simp

theorem joinSpace_canonical :
    ∀ (ws : List (List Char)),
      (∀ w ∈ ws, w ≠ [] ∧ ∀ c ∈ w, pyIsSpace c = false) →
      noDoubleWs (joinSpace ws) = true ∧ headNoWs (joinSpace ws) = true ∧
        lastNoWs (joinSpace ws) = true := by
  intro ws
  induction ws with
  | nil => intro _; exact ⟨rfl, rfl, rfl⟩
  | cons w ws ih =>
    intro h
    obtain ⟨hwne, hwns⟩ := h w (List.mem_cons_self _ _)
    cases ws with
    | nil =>
      rw [joinSpace_single]
      exact ⟨noDoubleWs_of_noWs w hwns, headNoWs_of_noWs hwns, lastNoWs_of_noWs hwns⟩
    | cons w2 ws2 =>
      obtain ⟨hJnd, hJh, hJl⟩ := ih (fun v hv => h v (List.mem_cons_of_mem w hv))
      obtain ⟨hw2ne, _⟩ := h w2 (List.mem_cons_of_mem w (List.mem_cons_self _ _))
      have hJne : joinSpace (w2 :: ws2) ≠ [] := joinSpace_ne_nil hw2ne
      rw [joinSpace_cons2]
      refine ⟨?_, ?_, ?_⟩
      · apply noDoubleWs_append w (' ' :: joinSpace (w2 :: ws2)) (noDoubleWs_of_noWs w hwns)
        · cases hJ : joinSpace (w2 :: ws2) with
          | nil => rfl
          | cons d t =>
            rw [noDoubleWs]
            have hd : pyIsSpace d = false := by
              rw [headNoWs, hJ] at hJh
              simp only [List.head?_cons] at hJh
              simpa using hJh
            rw [hd]
            simp only [Bool.and_false, Bool.not_false, Bool.true_and]
            rw [← hJ]
            exact hJnd
        · intro a b ha hb
          left
          have ham : a ∈ w := by
            obtain ⟨hne2, heq⟩ :=
              List.mem_getLast?_eq_getLast (Option.mem_def.mpr ha)
            exact heq ▸ List.getLast_mem hne2
          exact hwns a ham
      · exact headNoWs_append_left hwne (headNoWs_of_noWs hwns)
      · apply lastNoWs_append_right (by simp) ?_
        have : (' ' :: joinSpace (w2 :: ws2)) = [' '] ++ joinSpace (w2 :: ws2) := rfl
        rw [this]
        exact lastNoWs_append_right hJne hJl

theorem noDoubleWs_take :
    ∀ (l : List Char) (n : ℕ), noDoubleWs l = true → noDoubleWs (l.take n) = true := by
  intro l
  induction l with
  | nil => intro n _; simp [noDoubleWs]
  | cons c rest ih =>
    intro n h
    cases n with
    | zero => rfl
    | succ n =>
      rw [List.take_succ_cons]
      cases rest with
      | nil => simp [noDoubleWs]
      | cons c2 t =>
        cases n with
        | zero => rfl
        | succ n2 =>
          rw [List.take_succ_cons, noDoubleWs]
          rw [noDoubleWs, Bool.and_eq_true] at h
          rw [Bool.and_eq_true]
          refine ⟨h.1, ?_⟩
          have := ih (n2 + 1) h.2
          rwa [List.take_succ_cons] at this

theorem headNoWs_take {l : List Char} (n : ℕ) (h : headNoWs l = true) :
    headNoWs (l.take n) = true := by
  cases l with
  | nil => simp [headNoWs]
  | cons c t =>
    cases n with
    | zero => rfl
    | succ n =>
      rw [List.take_succ_cons]
      exact h

theorem headNoWs_prefix {l1 l2 : List Char} (hp : l1 <+: l2)
    (h : headNoWs l2 = true) : headNoWs l1 = true := by
  rw [List.prefix_iff_eq_take.mp hp]
  exact headNoWs_take _ h

theorem noDoubleWs_prefix {l1 l2 : List Char} (hp : l1 <+: l2)
    (h : noDoubleWs l2 = true) : noDoubleWs l1 = true := by
  rw [List.prefix_iff_eq_take.mp hp]
  exact noDoubleWs_take l2 _ h

theorem dropWhile_headNoWs (l : List Char) :
    headNoWs (l.dropWhile pyIsSpace) = true := by
  rw [headNoWs]
  cases hh : (l.dropWhile pyIsSpace).head? with
  | none => rfl
  | some c =>
    have := List.head?_dropWhile_not pyIsSpace l
    rw [hh] at this
    simp only [Option.all_some] at this
    simpa using this

theorem dropWhile_eq_self_of_headNoWs {l : List Char}
    (h : headNoWs l = true) : l.dropWhile pyIsSpace = l := by
  cases l with
  | nil => rfl
  | cons c t =>
    rw [headNoWs] at h
    simp only [List.head?_cons] at h
    rw [List.dropWhile_cons]
    simp only [Bool.not_eq_true'] at h
    rw [h]
    simp

theorem pyStrip_prefix_of_headNoWs {l : List Char} (h : headNoWs l = true) :
    pyStrip l <+: l := by
  rw [pyStrip, dropWhile_eq_self_of_headNoWs h]
  have hsuf : l.reverse.dropWhile pyIsSpace <:+ l.reverse :=
    List.dropWhile_suffix pyIsSpace
  have := List.reverse_prefix.mpr hsuf
  rwa [List.reverse_reverse] at this

theorem pyStrip_lastNoWs (l : List Char) : lastNoWs (pyStrip l) = true := by
  rw [lastNoWs, pyStrip, List.reverse_reverse]
  exact dropWhile_headNoWs _

theorem pyStrip_headNoWs {l : List Char} (h : headNoWs l = true) :
    headNoWs (pyStrip l) = true :=
  headNoWs_prefix (pyStrip_prefix_of_headNoWs h) h

theorem pyStrip_eq_self {l : List Char} (hh : headNoWs l = true)
    (hl : lastNoWs l = true) : pyStrip l = l := by
  rw [pyStrip, dropWhile_eq_self_of_headNoWs hh,
    dropWhile_eq_self_of_headNoWs hl, List.reverse_reverse]

theorem sanitize_filename_props (nfkd : String → String) (s : String) :
    allAscii (sanitize_filename nfkd s).data = true ∧
    noInvalid (sanitize_filename nfkd s).data = true ∧
    onlySpaceWs (sanitize_filename nfkd s).data = true ∧
    noDoubleWs (sanitize_filename nfkd s).data = true ∧
    headNoWs (sanitize_filename nfkd s).data = true ∧
    lastNoWs (sanitize_filename nfkd s).data = true ∧
    (sanitize_filename nfkd s).data.length ≤ 200 := by
  have hr : (sanitize_filename nfkd s).data =
      pyStrip ((joinSpace (pySplit (replaceInvalid
        (asciiIgnore (nfkd s).data)))).take 200) := rfl
  have hwords : ∀ w ∈ pySplit (replaceInvalid (asciiIgnore (nfkd s).data)),
      w ≠ [] ∧ ∀ c ∈ w, pyIsSpace c = false := by
    intro w hw
    obtain ⟨hne, hmem⟩ := splitAux_mem _ [] (by simp) w hw
    exact ⟨hne, fun c hc => (hmem c hc).2⟩
  have hJmem : ∀ c ∈ joinSpace (pySplit (replaceInvalid (asciiIgnore (nfkd s).data))),
      (c ∈ replaceInvalid (asciiIgnore (nfkd s).data) ∧ pyIsSpace c = false) ∨
        c = ' ' := by
    intro c hc
    rcases joinSpace_mem _ c hc with ⟨w, hw, hcw⟩ | hsp
    · obtain ⟨hor, hns⟩ := (splitAux_mem _ [] (by simp) w hw).2 c hcw
      exact Or.inl ⟨hor.resolve_right (List.not_mem_nil c), hns⟩
    · exact Or.inr hsp
  have hcs2a : ∀ c ∈ replaceInvalid (asciiIgnore (nfkd s).data),
      c.toNat < 128 ∧ c ∉ invalidChars := by
    intro c hc
    obtain ⟨hor, hninv⟩ := replaceInvalid_mem hc
    refine ⟨?_, hninv⟩
    rcases hor with hmem | hund
    · exact (mem_asciiIgnore hmem).2
    · rw [hund]; decide
  obtain ⟨hJnd, hJhead, _⟩ := joinSpace_canonical _ hwords
  have hmhead : headNoWs ((joinSpace (pySplit (replaceInvalid
      (asciiIgnore (nfkd s).data)))).take 200) = true := headNoWs_take 200 hJhead
  have hrpre := pyStrip_prefix_of_headNoWs hmhead
  have hrsub : ∀ c ∈ (sanitize_filename nfkd s).data,
      c ∈ joinSpace (pySplit (replaceInvalid (asciiIgnore (nfkd s).data))) := by
    intro c hc
    rw [hr] at hc
    exact List.take_subset 200 _ (hrpre.subset hc)
  refine ⟨?_, ?_, ?_, ?_, ?_, ?_, ?_⟩
  · rw [allAscii, List.all_eq_true]
    intro c hc
    rcases hJmem c (hrsub c hc) with ⟨hcs, _⟩ | hsp
    · simpa using (hcs2a c hcs).1
    · rw [hsp]; decide
  · rw [noInvalid, List.all_eq_true]
    intro c hc
    rcases hJmem c (hrsub c hc) with ⟨hcs, _⟩ | hsp
    · simpa using (hcs2a c hcs).2
    · rw [hsp]; decide
  · rw [onlySpaceWs, List.all_eq_true]
    intro c hc
    rcases hJmem c (hrsub c hc) with ⟨_, hns⟩ | hsp
    · simp [hns]
    · rw [hsp]; decide
  · rw [hr]
    exact noDoubleWs_prefix hrpre (noDoubleWs_take _ 200 hJnd)
  · rw [hr]
    exact pyStrip_headNoWs hmhead
  · rw [hr]
    exact pyStrip_lastNoWs _
  · rw [hr]
    refine le_trans hrpre.length_le ?_
    exact List.length_take_le 200 _

/-! ## C7: identity of the pipeline on canonical strings -/

theorem foldl_replacePass_id :
    ∀ (L cs : List Char), (∀ x ∈ cs, x ∉ L) → L.foldl replacePass cs = cs := by
  intro L
  induction L with
  | nil => intro cs _; rfl
  | cons ch L ih =>
    intro cs h
    rw [List.foldl_cons]
    have hpass : replacePass cs ch = cs := by
      rw [replacePass]
      have : ∀ x ∈ cs, (if x = ch then '_' else x) = id x := by
        intro x hx
        have hne : ¬ x = ch := by
          intro he
          exact h x hx (by rw [he]; exact List.mem_cons_self ch L)
        rw [if_neg hne]
        rfl
      rw [List.map_congr_left this, List.map_id]
    rw [hpass]
    exact ih cs (fun x hx hm => h x hx (List.mem_cons_of_mem ch hm))

theorem onlySpaceWs_tail {c : Char} {cs : List Char}
    (h : onlySpaceWs (c :: cs) = true) : onlySpaceWs cs = true := by
  rw [onlySpaceWs, List.all_cons, Bool.and_eq_true] at h
  exact h.2

theorem onlySpace_head {c : Char} {cs : List Char}
    (h : onlySpaceWs (c :: cs) = true) (hs : pyIsSpace c = true) : c = ' ' := by
  rw [onlySpaceWs, List.all_cons, Bool.and_eq_true] at h
  have := h.1
  rw [hs] at this
  simpa using this

theorem headNoWs_of_noDouble_space {c : Char} {cs : List Char}
    (hnd : noDoubleWs (c :: cs) = true) (hs : pyIsSpace c = true) :
    headNoWs cs = true := by
  cases cs with
  | nil => rfl
  | cons d t =>
    rw [noDoubleWs, Bool.and_eq_true] at hnd
    have := hnd.1
    rw [hs] at this
    simp only [Bool.true_and, Bool.not_eq_true'] at this
    rw [headNoWs]
    simp only [List.head?_cons, this]
    rfl

theorem lastNoWs_cons_of_ne {c : Char} {cs : List Char} (hne : cs ≠ [])
    (h : lastNoWs (c :: cs) = true) : lastNoWs cs = true := by
  rw [lastNoWs, List.reverse_cons] at h
  rw [lastNoWs]
  cases hrev : cs.reverse with
  | nil => exact absurd (List.reverse_eq_nil_iff.mp hrev) hne
  | cons d t =>
    rw [hrev, List.cons_append] at h
    rw [headNoWs] at h ⊢
    simpa using h

theorem lastNoWs_tail {c : Char} {cs : List Char}
    (h : lastNoWs (c :: cs) = true) : lastNoWs cs = true := by
  cases hcs : cs with
  | nil => rfl
  | cons d t =>
    rw [← hcs]
    exact lastNoWs_cons_of_ne (by rw [hcs]; simp) h

theorem splitAux_join :
    ∀ (cs acc : List Char), onlySpaceWs cs = true → noDoubleWs cs = true →
      lastNoWs cs = true → (∀ c ∈ acc, pyIsSpace c = false) →
      (acc = [] → headNoWs (cs) = true) →
      joinSpace (splitAux cs acc) = acc.reverse ++ cs := by
  intro cs
  induction cs with
  | nil =>
    intro acc _ _ _ _ _
    rw [splitAux]
    cases acc with
    | nil => rfl
    | cons a t =>
      simp only [List.isEmpty_cons, Bool.false_eq_true, if_false,
        joinSpace_single, List.append_nil]
  | cons c cs ih =>
    intro acc hos hnd hlast hacc hh
    rw [splitAux]
    by_cases hsp : pyIsSpace c = true
    · rw [if_pos hsp]
      have hcsp : c = ' ' := onlySpace_head hos hsp
      cases acc with
      | nil =>
        exfalso
        have := hh rfl
        rw [headNoWs] at this
        simp only [List.head?_cons, hsp] at this
        exact Bool.noConfusion this
      | cons a t =>
        simp only [List.isEmpty_cons, Bool.false_eq_true, if_false]
        have hcs_ne : cs ≠ [] := by
          intro he
          subst he
          rw [lastNoWs] at hlast
          simp only [List.reverse_cons, List.reverse_nil, List.nil_append] at hlast
          rw [headNoWs] at hlast
          simp only [List.head?_cons, hsp] at hlast
          exact Bool.noConfusion hlast
        have hhead2 : headNoWs cs = true := headNoWs_of_noDouble_space hnd hsp
        have hrec := ih [] (onlySpaceWs_tail hos) (noDoubleWs_tail hnd)
          (lastNoWs_tail hlast) (by simp) (fun _ => hhead2)
        simp only [List.reverse_nil, List.nil_append] at hrec
        have hsne : splitAux cs [] ≠ [] := by
          intro he
          rw [he] at hrec
          exact hcs_ne hrec.symm
        cases hsplit : splitAux cs [] with
        | nil => exact absurd hsplit hsne
        | cons w2 ws2 =>
          rw [joinSpace_cons2, ← hsplit, hrec, hcsp]
    · rw [if_neg hsp]
      have hacc2 : ∀ d ∈ c :: acc, pyIsSpace d = false := by
        intro d hd
        rcases List.mem_cons.mp hd with hd | hd
        · subst hd
          exact eq_false_of_ne_true hsp
        · exact hacc d hd
      have hrec := ih (c :: acc) (onlySpaceWs_tail hos) (noDoubleWs_tail hnd)
        (lastNoWs_tail hlast) hacc2 (fun he => absurd he (List.cons_ne_nil c acc))
      rw [hrec, List.reverse_cons, List.append_assoc, List.singleton_append]

theorem sanitize_fix (nfkd : String → String)
    (hnf : ∀ t2 : String, allAscii t2.data = true → nfkd t2 = t2) (x : String)
    (ha : allAscii x.data = true) (hni : noInvalid x.data = true)
    (hos : onlySpaceWs x.data = true) (hnd : noDoubleWs x.data = true)
    (hhd : headNoWs x.data = true) (hlt : lastNoWs x.data = true)
    (hlen : x.data.length ≤ 200) :
    sanitize_filename nfkd x = x := by
  have h1 : nfkd x = x := hnf x ha
  have h2 : asciiIgnore x.data = x.data := by
    rw [asciiIgnore]
    apply List.filter_eq_self.mpr
    rw [allAscii, List.all_eq_true] at ha
    exact ha
  have h3 : replaceInvalid x.data = x.data := by
    rw [replaceInvalid]
    apply foldl_replacePass_id
    rw [noInvalid, List.all_eq_true] at hni
    intro c hc
    have := hni c hc
    simpa using this
  have h4 : joinSpace (pySplit x.data) = x.data := by
    rw [pySplit]
    have := splitAux_join x.data [] hos hnd hlt (by simp) (fun _ => hhd)
    simpa using this
  show String.mk (pyStrip ((joinSpace (pySplit (replaceInvalid
    (asciiIgnore (nfkd x).data)))).take 200)) = x
  rw [h1, h2, h3, h4, List.take_of_length_le hlen, pyStrip_eq_self hhd hlt]

/-! ## C7: the sanitize_filename claim -/

/-- **C7.** For every input string and every behaviour of the external NFKD
normalizer, `sanitize_filename` returns a string containing only ASCII
characters, containing none of `< > : " / \ | ? *`, of length at most 200,
with no leading or trailing whitespace and no run of two consecutive
whitespace characters; and — given that NFKD normalization is the identity
on pure-ASCII strings (a property of the real `unicodedata.normalize`) —
applying `sanitize_filename` twice yields the same result as applying it
once. -/
theorem claim_C7_sanitize_filename (nfkd : String → String) (s : String) :
    (allAscii (sanitize_filename nfkd s).data = true ∧
      noInvalid (sanitize_filename nfkd s).data = true ∧
      (sanitize_filename nfkd s).length ≤ 200 ∧
      headNoWs (sanitize_filename nfkd s).data = true ∧
      lastNoWs (sanitize_filename nfkd s).data = true ∧
      noDoubleWs (sanitize_filename nfkd s).data = true) ∧
    ((∀ t2 : String, allAscii t2.data = true → nfkd t2 = t2) →
      sanitize_filename nfkd (sanitize_filename nfkd s) = sanitize_filename nfkd s) := by
  obtain ⟨ha, hni, hos, hnd, hhd, hlt, hlen⟩ := sanitize_filename_props nfkd s
  refine ⟨⟨ha, hni, hlen, hhd, hlt, hnd⟩, ?_⟩
  intro hnf
  exact sanitize_fix nfkd hnf _ ha hni hos hnd hhd hlt hlen

/-- Witness for C7: the identity normalizer is the identity on ASCII
strings, and sanitization of a concrete messy title is idempotent. -/
theorem claim_C7_witness :
    sanitize_filename (fun x => x)
        (sanitize_filename (fun x => x) "  Hello   <World>??  ")
      = sanitize_filename (fun x => x) "  Hello   <World>??  " :=
  (claim_C7_sanitize_filename (fun x => x) "  Hello   <World>??  ").2
    (fun _ _ => rfl)

end YtMp3
